import Mathlib

/-!
Verification development for the law2json converter: a shallow embedding of
the converter that turns German federal-law XML (gesetze-im-internet.de,
GiI-Norm DTD) into a hierarchical JSON document tree, together with theorems
settling the specified properties.

The embedding follows the most complete converter variant of the repository
(the standalone convert script: parseList, parseParagraph, parseArticle,
parseSection, parseOutline, convert, classifyMarker, levelFromCode,
parseArticleEnbez, renderInlineToMd), plus the dependency-injected
ListParser variant of the parser library (listParserParse) and the table
colspan computation (calculateColspan).

XML nodes after the order-preserving generic parse are modelled as a tagged
variant: a text node carrying its string, or an element carrying its raw tag
name, its attribute map and its ordered children.  JavaScript string
semantics (trim, regular expressions, truthiness of empty strings) are
translated explicitly.
-/

namespace Law2Json

/-- Order-preserving generic XML node: text node or element with raw tag,
attributes and ordered children (the tagged-variant normalization of the
duck-typed PONode shape). -/
inductive PONode where
  | text (s : String)
  | elem (tag : String) (attrs : List (String × String)) (kids : List PONode)
deriving Repr

/-! ### JavaScript string semantics -/

/-- JavaScript whitespace class (regex backslash-s and String.trim):
tab through carriage return, space, no-break space, ogham space mark, the
en-quad through hair-space range, line and paragraph separators, narrow
no-break space, medium mathematical space, ideographic space, BOM. -/
def jsIsSpace (c : Char) : Bool :=
  (0x9 ≤ c.val && c.val ≤ 0xd) || c.val = 0x20 || c.val = 0xa0 ||
  c.val = 0x1680 || (0x2000 ≤ c.val && c.val ≤ 0x200a) ||
  c.val = 0x2028 || c.val = 0x2029 || c.val = 0x202f ||
  c.val = 0x205f || c.val = 0x3000 || c.val = 0xfeff

/-- JavaScript String.trim: strip leading and trailing whitespace. -/
def jsTrim (s : String) : String :=
  String.mk (((s.toList.dropWhile jsIsSpace).reverse.dropWhile jsIsSpace).reverse)

/-- ASCII letter (regex [a-zA-Z]). -/
def isAsciiLetter (c : Char) : Bool :=
  ('a' ≤ c && c ≤ 'z') || ('A' ≤ c && c ≤ 'Z')

/-- ASCII lower-case letter (regex [a-z]). -/
def isAsciiLower (c : Char) : Bool := 'a' ≤ c && c ≤ 'z'

/-- ASCII upper-case letter (regex [A-Z]). -/
def isAsciiUpper (c : Char) : Bool := 'A' ≤ c && c ≤ 'Z'

/-- First maximal digit run of a string (JavaScript s.match of digit-plus,
first capture), used to extract a numeric token from a list marker. -/
def firstDigitRunAux : List Char → Option (List Char)
  | [] => none
  | c :: cs => if c.isDigit then some (c :: cs.takeWhile Char.isDigit)
               else firstDigitRunAux cs

/-- First digit run of a string as an optional string. -/
def firstDigitRun (s : String) : Option String :=
  (firstDigitRunAux s.toList).map String.mk

/-- First ASCII letter of a string (JavaScript s.match of [a-z] with the i
flag), used to extract an alphabetic token from a list marker. -/
def firstAsciiLetterAux : List Char → Option Char
  | [] => none
  | c :: cs => if isAsciiLetter c then some c else firstAsciiLetterAux cs

/-- First ASCII letter of a string. -/
def firstAsciiLetter (s : String) : Option Char :=
  firstAsciiLetterAux s.toList

/-- ASCII lower-casing of a letter (JavaScript toLowerCase on a letter). -/
def asciiToLower (c : Char) : Char :=
  if isAsciiUpper c then Char.ofNat (c.toNat + 32) else c

/-- Lower-case an entire string character-wise (ASCII). -/
def asciiLowerStr (s : String) : String :=
  String.mk (s.toList.map asciiToLower)

/-! ### Node-shape helpers (ingestion normalization) -/

/-- Strip a namespace prefix up to the first colon (JS replace of the
leading colon-free run plus the colon with nothing): when the string
contains a colon, drop everything up to and including the first one. -/
def stripNs (s : String) : String :=
  if s.toList.contains ':' then
    String.mk ((s.toList.dropWhile (fun c => c ≠ ':')).drop 1)
  else s

/-- Lower-cased, namespace-stripped tag name. -/
def lnameOf (raw : String) : String := asciiLowerStr (stripNs raw)

/-- Tag name of a node: none for text nodes. -/
def lname : PONode → Option String
  | .text _ => none
  | .elem raw _ _ => some (lnameOf raw)

/-- Ordered children of a node (empty for text nodes). -/
def childrenOf : PONode → List PONode
  | .text _ => []
  | .elem _ _ kids => kids

/-- Attribute map of a node (empty for text nodes). -/
def attrsOf : PONode → List (String × String)
  | .text _ => []
  | .elem _ a _ => a

/-- Is this a text node. -/
def isTextNode : PONode → Bool
  | .text _ => true
  | .elem _ _ _ => false

/-- Direct text of a text node, empty otherwise. -/
def textOf : PONode → String
  | .text s => s
  | .elem _ _ _ => ""

/-- Attribute lookup by exact name. -/
def getAttr (n : PONode) (name : String) : Option String :=
  ((attrsOf n).find? (fun p => p.1 = name)).map Prod.snd

/-- First child with the given (already lower-case) local name. -/
def firstChild (n : PONode) (name : String) : Option PONode :=
  (childrenOf n).find? (fun c => lname c = some name)

/-- All direct children with the given local name. -/
def allChildren (n : PONode) (name : String) : List PONode :=
  (childrenOf n).filter (fun c => lname c = some name)

/-! ### Level detection for gliederungskennzahl -/

/-- Nesting depth of an outline code: strip non-digits, empty means depth 1,
otherwise the ceiling of the digit count divided by 3. -/
def levelFromCode (code : String) : Nat :=
  let digits := ((jsTrim code).toList.filter Char.isDigit)
  if digits = [] then 1 else (digits.length + 2) / 3

/-! ### List-marker classification -/

inductive ListKind where
  | ordered | unordered
deriving Repr, DecidableEq

inductive ListStyle where
  | arabic | romanLower | romanUpper | alphaLower | alphaUpper
  | bullet | dash | custom
deriving Repr, DecidableEq

/-- Classification result for a list marker. -/
structure MarkerClass where
  kind : ListKind
  style : ListStyle
  label : Option String := none
  symbol : Option String := none
deriving Repr, DecidableEq

/-- Arabic marker pattern: optional opening parenthesis, digits, optional
closing parenthesis, optional trailing dot or closing parenthesis,
end of string. -/
def arabicPat (cs : List Char) : Bool :=
  let cs1 := match cs with
    | '(' :: r => r
    | _ => cs
  let ds := cs1.takeWhile Char.isDigit
  let r := cs1.dropWhile Char.isDigit
  decide (ds ≠ []) &&
    (r = [] || r = [')'] || r = ['.'] || r = [')', ')'] || r = [')', '.'])

/-- Single lower-case letter followed by closing parenthesis. -/
def alphaLowerPat (cs : List Char) : Bool :=
  match cs with
  | [c, ')'] => isAsciiLower c
  | _ => false

/-- Single upper-case letter followed by closing parenthesis. -/
def alphaUpperPat (cs : List Char) : Bool :=
  match cs with
  | [c, ')'] => isAsciiUpper c
  | _ => false

/-- Lower-case roman-digit letter. -/
def isRomanLowerChar (c : Char) : Bool :=
  c = 'i' || c = 'v' || c = 'x' || c = 'l' || c = 'c' || c = 'd' || c = 'm'

/-- Upper-case roman-digit letter. -/
def isRomanUpperChar (c : Char) : Bool :=
  c = 'I' || c = 'V' || c = 'X' || c = 'L' || c = 'C' || c = 'D' || c = 'M'

/-- One or more lower-case roman-digit letters followed by a closing
parenthesis. -/
def romanLowerPat (cs : List Char) : Bool :=
  match cs.reverse with
  | ')' :: rest => decide (rest ≠ []) && rest.all isRomanLowerChar
  | _ => false

/-- One or more upper-case roman-digit letters followed by a closing
parenthesis. -/
def romanUpperPat (cs : List Char) : Bool :=
  match cs.reverse with
  | ')' :: rest => decide (rest ≠ []) && rest.all isRomanUpperChar
  | _ => false

/-- Classify a raw list marker into kind, style, optional label and optional
symbol, trying the patterns in priority order. -/
def classifyMarker (raw : String) : MarkerClass :=
  let m := jsTrim raw
  let cs := m.toList
  if arabicPat cs then { kind := .ordered, style := .arabic, label := some m }
  else if alphaLowerPat cs then { kind := .ordered, style := .alphaLower, label := some m }
  else if alphaUpperPat cs then { kind := .ordered, style := .alphaUpper, label := some m }
  else if romanLowerPat cs then { kind := .ordered, style := .romanLower, label := some m }
  else if romanUpperPat cs then { kind := .ordered, style := .romanUpper, label := some m }
  else if m = "•" then { kind := .unordered, style := .bullet }
  else if m = "-" || m = "–" || m = "—" then { kind := .unordered, style := .dash }
  else { kind := .unordered, style := .custom, symbol := some m }

/-! ### Article citation labels -/

/-- Tail of the citation grammar: optional whitespace, digits, optional
single ASCII letter, end of input; returns the captured number token. -/
def citeNumTail (cs : List Char) : Option String :=
  let r := cs.dropWhile jsIsSpace
  let ds := r.takeWhile Char.isDigit
  let r2 := r.dropWhile Char.isDigit
  if ds = [] then none
  else match r2 with
    | [] => some (String.mk ds)
    | [c] => if isAsciiLetter c then some (String.mk (ds ++ [c])) else none
    | _ => none

/-- Case-insensitive ASCII comparison of a character against a lower-case
pattern character. -/
def ciIs (c : Char) (lower : Char) : Bool := asciiToLower c = lower

/-- The Art/Artikel alternative of the citation grammar, case-insensitive:
the word Art, optionally continued by a dot or by ikel, then the numeric
tail; the alternatives of the optional group are tried in regex order. -/
def artMatch (cs : List Char) : Option (String × String) :=
  match cs with
  | a :: r :: t :: rest =>
    if ciIs a 'a' && ciIs r 'r' && ciIs t 't' then
      let viaDot := match rest with
        | '.' :: rest2 => citeNumTail rest2
        | _ => none
      let viaIkel := match rest with
        | i :: k :: e :: l :: rest2 =>
          if ciIs i 'i' && ciIs k 'k' && ciIs e 'e' && ciIs l 'l' then
            citeNumTail rest2
          else none
        | _ => none
      match viaDot.orElse (fun _ => viaIkel.orElse (fun _ => citeNumTail rest)) with
      | some num => some ("Art. " ++ num, num)
      | none => none
    else none
  | _ => none

/-- Match a citation label against the closed grammar: one or more paragraph
signs followed by a number (with optional letter suffix), or the word Art
(optionally continued by a dot or by ikel, case-insensitively) followed by a
number; returns normalized label and captured id. -/
def parseArticleEnbez (raw : String) : Option (String × String) :=
  let s := jsTrim raw
  let cs := s.toList
  let signs := cs.takeWhile (fun c => c = '§')
  let afterSigns := cs.dropWhile (fun c => c = '§')
  if signs ≠ [] then
    match citeNumTail afterSigns with
    | some num => some ("§ " ++ num, num)
    | none => artMatch cs
  else artMatch cs

/-! ### Size lemmas for recursion over the node tree -/

theorem sizeOf_childrenOf_lt (n : PONode) : sizeOf (childrenOf n) < sizeOf n := by
  cases n with
  | text s =>
    cases s with
    | mk data => simp [childrenOf]
  | elem t a k =>
    simp only [childrenOf, PONode.elem.sizeOf_spec]
    omega

theorem sizeOf_head_lt (a : PONode) (l : List PONode) : sizeOf a < sizeOf (a :: l) := by
  simp only [List.cons.sizeOf_spec]
  omega

theorem sizeOf_tail_lt (a : PONode) (l : List PONode) : sizeOf l < sizeOf (a :: l) := by
  simp only [List.cons.sizeOf_spec]
  omega

theorem sizeOf_childrenOf_head_lt (a : PONode) (l : List PONode) :
    sizeOf (childrenOf a) < sizeOf (a :: l) :=
  lt_trans (sizeOf_childrenOf_lt a) (sizeOf_head_lt a l)

/-! ### Inline rendering to Markdown -/

/-- Attribute lookup in an attribute list. -/
def lookupAttr (attrs : List (String × String)) (name : String) : Option String :=
  (attrs.find? (fun p => p.1 = name)).map Prod.snd

/-- Nullish-coalescing lookup of a footnote-reference id attribute:
ID, then Id, then id. -/
def fnrIdAttr (attrs : List (String × String)) : Option String :=
  (lookupAttr attrs "ID").orElse (fun _ =>
    (lookupAttr attrs "Id").orElse (fun _ => lookupAttr attrs "id"))

mutual

/-- Render one inline node to the restricted Markdown-plus-HTML string. -/
def renderInlineOne : PONode → String
  | .text s => s
  | .elem raw attrs kids =>
    let t := lnameOf raw
    if t = "b" then "**" ++ renderInlineList kids ++ "**"
    else if t = "i" then "*" ++ renderInlineList kids ++ "*"
    else if t = "u" then "<u>" ++ renderInlineList kids ++ "</u>"
    else if t = "sup" then "<sup>" ++ renderInlineList kids ++ "</sup>"
    else if t = "sub" then "<sub>" ++ renderInlineList kids ++ "</sub>"
    else if t = "small" then "<small>" ++ renderInlineList kids ++ "</small>"
    else if t = "br" then "<br />"
    else if t = "noindex" then renderInlineList kids
    else if t = "fnr" then
      match fnrIdAttr attrs with
      | some v => if v ≠ "" then "[^" ++ jsTrim v ++ "]" else ""
      | none =>
        let r := renderInlineList kids
        if r ≠ "" then "[^" ++ jsTrim r ++ "]" else ""
    else renderInlineList kids

/-- Render a sequence of inline nodes, concatenating in document order. -/
def renderInlineList : List PONode → String
  | [] => ""
  | n :: ns => renderInlineOne n ++ renderInlineList ns

end

/-- Inline-to-Markdown renderer over an ordered node sequence. -/
def renderInlineToMd (nodes : List PONode) : String := renderInlineList nodes

mutual

/-- Concatenation of all descendant text of a node, untrimmed. -/
def textDeepRaw : PONode → String
  | .text s => s
  | .elem _ _ kids => textDeepRawList kids

/-- Concatenation of all descendant text of a node list, untrimmed. -/
def textDeepRawList : List PONode → String
  | [] => ""
  | n :: ns => textDeepRaw n ++ textDeepRawList ns

end

/-- Recursively concatenated descendant text, trimmed. -/
def textDeep (n : PONode) : String := jsTrim (textDeepRaw n)

mutual

/-- All descendants (the node itself included) with the given local name,
in document order. -/
def allDescWalk (target : String) : PONode → List PONode
  | .text _ => []
  | .elem raw attrs kids =>
    (if lnameOf raw = target then [PONode.elem raw attrs kids] else []) ++
      allDescWalkList target kids

/-- Descendant collection over a node list. -/
def allDescWalkList (target : String) : List PONode → List PONode
  | [] => []
  | n :: ns => allDescWalk target n ++ allDescWalkList target ns

end

/-- All descendants of a node with the given (lower-case) local name. -/
def allDesc (n : PONode) (name : String) : List PONode :=
  allDescWalk name n

/-! ### Output node types (agreed schema of the main converter) -/

mutual

/-- Paragraph child: a rendered text run or a nested list. -/
inductive PChild where
  | md (md : String)
  | list (l : ListNode)

/-- List node: kind, style, optional symbol, ordered items. -/
inductive ListNode where
  | mk (kind : ListKind) (style : ListStyle) (symbol : Option String)
       (children : List ListItemNode)

/-- List item: optional display label, optional hierarchical id, mixed
content children. -/
inductive ListItemNode where
  | mk (label : Option String) (id : Option String) (children : List LiChild)

/-- List-item child: text run, nested paragraph, or nested list. -/
inductive LiChild where
  | md (md : String)
  | p (pn : ParagraphNode)
  | list (l : ListNode)

/-- Paragraph node: optional numbering label, optional hierarchical id,
ordered mixed-content children. -/
inductive ParagraphNode where
  | mk (label : Option String) (id : Option String) (children : List PChild)

end

def ListNode.kind : ListNode → ListKind
  | .mk k _ _ _ => k

def ListNode.style : ListNode → ListStyle
  | .mk _ s _ _ => s

def ListNode.symbol : ListNode → Option String
  | .mk _ _ s _ => s

def ListNode.children : ListNode → List ListItemNode
  | .mk _ _ _ c => c

def ListItemNode.label : ListItemNode → Option String
  | .mk l _ _ => l

def ListItemNode.id : ListItemNode → Option String
  | .mk _ i _ => i

def ListItemNode.children : ListItemNode → List LiChild
  | .mk _ _ c => c

def ParagraphNode.label : ParagraphNode → Option String
  | .mk l _ _ => l

def ParagraphNode.id : ParagraphNode → Option String
  | .mk _ i _ => i

def ParagraphNode.children : ParagraphNode → List PChild
  | .mk _ _ c => c

/-! ### List parsing (definition lists) -/

/-- Mutable loop state of the list parser: emitted items, pending term
marker, classification fields, current mixed-content buffer. -/
structure LState where
  items : List ListItemNode
  pending : Option String
  kind : ListKind
  style : ListStyle
  symbol : Option String
  buf : List LiChild

/-- Initial list-parser state: no items, no pending marker, defaults
unordered and custom, empty buffer. -/
def initLState : LState :=
  { items := []
    pending := none
    kind := .unordered
    style := .custom
    symbol := none
    buf := [] }

/-- Flush the pending item: no-op when there is neither a pending marker nor
buffered content; otherwise emit a ListItem whose label is the pending
marker when non-empty, and whose id extends a non-empty id prefix by the
marker's first digit run when one exists. -/
def liFlush (idPfx : String) (st : LState) : LState :=
  match st.pending with
  | none =>
    if st.buf.isEmpty then st
    else { st with
           items := st.items ++ [.mk none none st.buf]
           pending := none
           buf := [] }
  | some m =>
    let label := if m = "" then none else some m
    let id := if idPfx ≠ "" ∧ m ≠ "" then
        (firstDigitRun m).map (fun d => idPfx ++ "." ++ d)
      else none
    { st with
      items := st.items ++ [.mk label id st.buf]
      pending := none
      buf := [] }

/-- Id prefix for structures nested inside a definition: extend a non-empty
prefix by the pending marker's first digit run (defaulting to the token 1)
when a non-empty marker is pending, else keep the prefix. -/
def nestedPfxOf (idPfx : String) (pending : Option String) : String :=
  match pending with
  | some m =>
    if idPfx ≠ "" ∧ m ≠ "" then idPfx ++ "." ++ ((firstDigitRun m).getD "1")
    else idPfx
  | none => idPfx

/-- Append the trimmed text buffer to the mixed-content buffer when
non-blank. -/
def flushTextInto (tb : String) (buf : List LiChild) : List LiChild :=
  let md := jsTrim tb
  if md = "" then buf else buf ++ [.md md]

/-- Append the trimmed text buffer to the paragraph children when
non-blank. -/
def pFlushText (tb : String) (out : List PChild) : List PChild :=
  let md := jsTrim tb
  if md = "" then out else out ++ [.md md]

/-- Clear the display label of a list item (labels of unordered lists). -/
def clearLabel : ListItemNode → ListItemNode
  | .mk _ id ch => .mk none id ch

/-- JavaScript truthiness of an optional string. -/
def optTruthy : Option String → Bool
  | some s => s ≠ ""
  | none => false

/-- Leading paragraph-number pattern: optional whitespace, an opening
parenthesis, digits, a closing parenthesis, then trailing whitespace;
returns the captured digits and the total matched length in characters. -/
def parenNumMatch (s : String) : Option (String × Nat) :=
  let cs := s.toList
  let ws := cs.takeWhile jsIsSpace
  let rest := cs.dropWhile jsIsSpace
  match rest with
  | '(' :: r1 =>
    let ds := r1.takeWhile Char.isDigit
    let r2 := r1.dropWhile Char.isDigit
    if ds = [] then none
    else match r2 with
      | ')' :: r3 =>
        let ws2 := r3.takeWhile jsIsSpace
        some (String.mk ds, ws.length + 1 + ds.length + 1 + ws2.length)
      | _ => none
  | _ => none

/-- Scan the direct children for the first text node whose trimmed content
starts with the paragraph-number pattern; return the captured digits. -/
def paraScanNum : List PONode → Option String
  | [] => none
  | k :: ks =>
    match k with
    | .text s =>
      (match parenNumMatch (jsTrim s) with
       | some (d, _) => some d
       | none => paraScanNum ks)
    | _ => paraScanNum ks

/-- Drop a number of leading characters from a string (JS slice). -/
def strDrop (s : String) (n : Nat) : String := String.mk (s.toList.drop n)

/-- Finalize a paragraph: when a paragraph number was scanned and the first
emitted child is a text run that still starts with the number pattern,
strip the matched marker text from that run and set label and id;
otherwise emit the paragraph with no label and no id. -/
def paraFinalize (pNum : Option String) (paragraphId : String)
    (out : List PChild) : ParagraphNode :=
  match pNum, out with
  | some n, PChild.md m0 :: rest =>
    (match parenNumMatch m0 with
     | some (_, len) =>
       .mk (some ("(" ++ n ++ ")")) (some paragraphId)
         (PChild.md (strDrop m0 len) :: rest)
     | none => .mk none none (PChild.md m0 :: rest))
  | _, _ => .mk none none out

mutual

/-- Parse a definition list into a List node: loop over the children,
final flush, clear labels when unordered, carry the symbol only for
unordered custom lists with a truthy symbol. -/
def parseList (dl : PONode) (idPfx : String) : ListNode :=
  let st := liFlush idPfx (listLoop (childrenOf dl) idPfx initLState)
  let items := if st.kind = .unordered then st.items.map clearLabel else st.items
  let symbol := if st.kind = .unordered ∧ st.style = .custom ∧ optTruthy st.symbol
    then st.symbol else none
  .mk st.kind st.style symbol items
  termination_by sizeOf dl
  decreasing_by
    all_goals simp_wf
    all_goals
      first
      | exact sizeOf_childrenOf_lt _
      | exact sizeOf_childrenOf_head_lt _ _
      | exact sizeOf_head_lt _ _
      | exact sizeOf_tail_lt _ _


/-- Loop of the list parser over the definition-list children: a term
flushes the previous item, classifies the list from the first item's
marker, and holds the marker pending; a definition (or list-article)
walks its parts distinguishing text, nested lists, nested paragraphs and
inline content; other children are ignored. -/
def listLoop (nodes : List PONode) (idPfx : String) (st : LState) : LState :=
  match nodes with
  | [] => st
  | node :: rest =>
    match lname node with
    | some t =>
      if t = "dt" then
        let st1 := liFlush idPfx st
        let markerText := jsTrim (renderInlineToMd (childrenOf node))
        let st2 :=
          if st1.items.isEmpty then
            let c := classifyMarker markerText
            { st1 with
              kind := c.kind
              style := c.style
              symbol := c.symbol
              pending := some markerText }
          else { st1 with pending := some markerText }
        listLoop rest idPfx st2
      else if t = "dd" ∨ t = "la" then
        let acc := ddLoop (childrenOf node) idPfx st.pending ("", st.buf)
        listLoop rest idPfx { st with buf := flushTextInto acc.1 acc.2 }
      else listLoop rest idPfx st
    | none => listLoop rest idPfx st
  termination_by sizeOf nodes
  decreasing_by
    all_goals simp_wf
    all_goals
      first
      | exact sizeOf_childrenOf_lt _
      | exact sizeOf_childrenOf_head_lt _ _
      | exact sizeOf_head_lt _ _
      | exact sizeOf_tail_lt _ _


/-- Loop of the list parser over a definition's parts: text accumulates in
a buffer, a nested definition list or paragraph flushes the buffer and
recurses with the extended id prefix, anything else renders inline. -/
def ddLoop (parts : List PONode) (idPfx : String) (pending : Option String)
    (acc : String × List LiChild) : String × List LiChild :=
  match parts with
  | [] => acc
  | part :: rest =>
    match lname part with
    | none => ddLoop rest idPfx pending (acc.1 ++ textOf part, acc.2)
    | some pt =>
      if pt = "dl" then
        let buf2 := flushTextInto acc.1 acc.2
        let np := nestedPfxOf idPfx pending
        ddLoop rest idPfx pending ("", buf2 ++ [.list (parseList part np)])
      else if pt = "p" then
        let buf2 := flushTextInto acc.1 acc.2
        let np := nestedPfxOf idPfx pending
        ddLoop rest idPfx pending ("", buf2 ++ [.p (parseParagraph part np)])
      else ddLoop rest idPfx pending (acc.1 ++ renderInlineOne part, acc.2)
  termination_by sizeOf parts
  decreasing_by
    all_goals simp_wf
    all_goals
      first
      | exact sizeOf_childrenOf_lt _
      | exact sizeOf_childrenOf_head_lt _ _
      | exact sizeOf_head_lt _ _
      | exact sizeOf_tail_lt _ _


/-- Parse a paragraph from mixed content: scan for a leading paragraph
number to build the id context, loop over the children buffering text
and recursing into nested definition lists, then finalize. -/
def parseParagraph (p : PONode) (idPfx : String) : ParagraphNode :=
  let kids := childrenOf p
  let pNum := paraScanNum kids
  let paragraphId :=
    match pNum with
    | some d => if idPfx ≠ "" then idPfx ++ "." ++ d else d
    | none => idPfx
  paraFinalize pNum paragraphId (paraLoop kids paragraphId ("", []))
  termination_by sizeOf p
  decreasing_by
    all_goals simp_wf
    all_goals
      first
      | exact sizeOf_childrenOf_lt _
      | exact sizeOf_childrenOf_head_lt _ _
      | exact sizeOf_head_lt _ _
      | exact sizeOf_tail_lt _ _


/-- Loop of the paragraph parser over its children: text accumulates, a
nested definition list flushes the buffer and recurses with the
paragraph id as prefix, anything else renders inline; ends with a final
flush. -/
def paraLoop (kids : List PONode) (paragraphId : String)
    (acc : String × List PChild) : List PChild :=
  match kids with
  | [] => pFlushText acc.1 acc.2
  | k :: rest =>
    match lname k with
    | none => paraLoop rest paragraphId (acc.1 ++ textOf k, acc.2)
    | some t =>
      if t = "dl" then
        let out2 := pFlushText acc.1 acc.2
        paraLoop rest paragraphId ("", out2 ++ [.list (parseList k paragraphId)])
      else paraLoop rest paragraphId (acc.1 ++ renderInlineOne k, acc.2)
  termination_by sizeOf kids
  decreasing_by
    all_goals simp_wf
    all_goals
      first
      | exact sizeOf_childrenOf_lt _
      | exact sizeOf_childrenOf_head_lt _ _
      | exact sizeOf_head_lt _ _
      | exact sizeOf_tail_lt _ _


end

/-! ### Tables, footnotes, articles, sections, outlines -/

/-- Parse a table into rows of trimmed Markdown cells (direct row children,
each with its direct entry children). -/
def parseTable (tbl : PONode) : List (List String) :=
  (allChildren tbl "row").map (fun row =>
    (allChildren row "entry").map (fun e => jsTrim (renderInlineToMd (childrenOf e))))

/-- Footnote: externally referenced id plus rendered text. -/
structure Footnote where
  id : String
  md : String
deriving Repr, DecidableEq

/-- Collect all footnote descendants of a record, keyed by their id
attribute; footnotes with a blank id are skipped. -/
def collectFootnotes (norm : PONode) : List Footnote :=
  (allDesc norm "footnote").filterMap (fun fn =>
    let rawId := (fnrIdAttr (attrsOf fn)).getD ""
    let id := jsTrim rawId
    if id = "" then none
    else some ⟨id, jsTrim (renderInlineToMd (childrenOf fn))⟩)

/-- Block-level child of an article or section. -/
inductive BlockChild where
  | p (x : ParagraphNode)
  | list (x : ListNode)
  | table (rows : List (List String))

/-- Structural tree node of the output document. -/
inductive TreeNode where
  | outline (id label : String) (title : Option String) (children : List TreeNode)
  | article (id label : String) (title : Option String) (doknr : Option String)
            (footnotes : List Footnote) (children : List BlockChild)
  | section (title : Option String) (doknr : Option String)
            (children : List BlockChild)

/-- The truthy doknr attribute of a record, when present and non-empty. -/
def doknrOf (norm : PONode) : Option String :=
  match getAttr norm "doknr" with
  | some s => if s ≠ "" then some s else none
  | none => none

/-- Dispatch one direct child of a content block by tag name: paragraph,
definition list or table; anything else is ignored. -/
def articleChildDispatch (pid : String) (child : PONode) : Option BlockChild :=
  match lname child with
  | none => none
  | some t =>
    if t = "p" then some (.p (parseParagraph child pid))
    else if t = "dl" then some (.list (parseList child pid))
    else if t = "table" then some (.table (parseTable child))
    else none

/-- All block children of a record: every content descendant's direct
children, dispatched in document order. -/
def contentBlocks (norm : PONode) (pid : String) : List BlockChild :=
  (allDesc norm "content").flatMap (fun content =>
    (childrenOf content).filterMap (articleChildDispatch pid))

/-- Parse a record into an Article when its citation label matches the
closed grammar: captured number as id, normalized label, optional title,
truthy doknr, collected footnotes, dispatched content blocks with the id
as prefix. -/
def parseArticle (norm : PONode) : Option TreeNode :=
  match firstChild norm "metadaten" with
  | none => none
  | some meta =>
    match firstChild meta "enbez" with
    | none => none
    | some enbezN =>
      match parseArticleEnbez (textDeep enbezN) with
      | none => none
      | some (label, id) =>
        let title := (firstChild meta "titel").map textDeep
        some (.article id label title (doknrOf norm) (collectFootnotes norm)
          (contentBlocks norm id))

/-- Parse a record into a generic Section when it has a citation label
element that does not match the citation grammar: raw label text as title
when non-empty, dispatched content blocks with an empty id prefix. -/
def parseSection (norm : PONode) : Option TreeNode :=
  match firstChild norm "metadaten" with
  | none => none
  | some meta =>
    match firstChild meta "enbez" with
    | none => none
    | some enbezN =>
      let enbez := textDeep enbezN
      match parseArticleEnbez enbez with
      | some _ => none
      | none =>
        some (.section (if enbez ≠ "" then some enbez else none) (doknrOf norm)
          (contentBlocks norm ""))

/-- Outline parse result: code, display label, optional title, computed
nesting level. -/
structure OutlineParse where
  id : String
  label : String
  title : Option String
  level : Nat
deriving Repr, DecidableEq

/-- Parse a record into an outline node when its metadata carries an
outline unit with non-empty code and label; the level is computed from
the code. -/
def parseOutline (norm : PONode) : Option OutlineParse :=
  match firstChild norm "metadaten" with
  | none => none
  | some meta =>
    match firstChild meta "gliederungseinheit" with
    | none => none
    | some gl =>
      let id := match firstChild gl "gliederungskennzahl" with
        | some c => textDeep c
        | none => ""
      let label := match firstChild gl "gliederungsbez" with
        | some c => textDeep c
        | none => ""
      let title := match (firstChild gl "gliederungstitel").map textDeep with
        | some t => if t ≠ "" then some t else none
        | none => none
      if id = "" ∨ label = "" then none
      else some ⟨id, label, title, levelFromCode id⟩

/-! ### Document metadata -/

/-- Document-level metadata: law abbreviation and title. -/
structure DocMeta where
  jurabk : Option String
  title : Option String
deriving Repr, DecidableEq

/-- Strip a trailing year from an abbreviation: remove a final run of
whitespace followed by exactly four digits at the end of the string. -/
def stripYearSuffix (s : String) : String :=
  let rev := s.toList.reverse
  let d := rev.take 4
  let rest := rev.drop 4
  if d.length = 4 ∧ d.all Char.isDigit ∧ rest.takeWhile jsIsSpace ≠ [] then
    String.mk (rest.dropWhile jsIsSpace).reverse
  else s

/-- Opportunistically fill document metadata from a record: the cleaned
abbreviation when none is set yet, and the title from the long title,
else the short title, else the heading; fields holding a truthy value
are never overwritten. -/
def extractLawMetadata (norm : PONode) (meta : DocMeta) : DocMeta :=
  match firstChild norm "metadaten" with
  | none => meta
  | some m =>
    let jurabk :=
      if optTruthy meta.jurabk then meta.jurabk
      else match firstChild m "jurabk" with
        | some j => some (stripYearSuffix (jsTrim (textDeep j)))
        | none => meta.jurabk
    let title :=
      if optTruthy meta.title then meta.title
      else match firstChild m "langue" with
        | some l => some (jsTrim (textDeep l))
        | none =>
          match firstChild m "kurzue" with
          | some k => some (jsTrim (textDeep k))
          | none =>
            match firstChild m "titel" with
            | some t => some (jsTrim (textDeep t))
            | none => meta.title
    ⟨jurabk, title⟩

/-! ### Document assembly -/

/-- All norm records of the parsed forest, in document order. -/
def collectNorms (roots : List PONode) : List PONode :=
  allDescWalkList "norm" roots

/-- Document root: optional abbreviation, optional title, top-level
children. -/
structure DocumentNode where
  jurabk : Option String
  title : Option String
  children : List TreeNode

/-- An open outline node on the assembler stack: its fields and the
children accumulated so far. -/
structure Frame where
  id : String
  label : String
  title : Option String
  level : Nat
  acc : List TreeNode

/-- Close an open outline node into a tree node. -/
def finalizeFrame (f : Frame) : TreeNode := .outline f.id f.label f.title f.acc

/-- Assembler state: finished top-level children, stack of open outline
nodes (innermost first), document metadata. -/
structure CState where
  dc : List TreeNode
  stack : List Frame
  meta : DocMeta

/-- Pop open outline nodes while the stack holds at least the new level
many of them, attaching each closed node to its parent (or to the
document root when it was the outermost). -/
def popWhile (lvl : Nat) : List Frame → List TreeNode → List Frame × List TreeNode
  | [], dc => ([], dc)
  | f :: rest, dc =>
    if rest.length + 1 ≥ lvl then
      match rest with
      | [] => ([], dc ++ [finalizeFrame f])
      | g :: gs =>
        popWhile lvl ({ g with acc := g.acc ++ [finalizeFrame f] } :: gs) dc
    else (f :: rest, dc)
  termination_by stack _ => stack.length
  decreasing_by simp_wf

/-- Attach a finished article or section node to the innermost open
outline node, or to the document root when none is open. -/
def pushInto (node : TreeNode) (st : CState) : CState :=
  match st.stack with
  | f :: rest => { st with stack := { f with acc := f.acc ++ [node] } :: rest }
  | [] => { st with dc := st.dc ++ [node] }

/-- One assembler transition: an outline record pops the stack by its
level and opens a new outline node; otherwise an article, otherwise a
section, each attached to the current top; metadata is filled
opportunistically in every successful branch; other records are
ignored. -/
def convertStep (st : CState) (norm : PONode) : CState :=
  match parseOutline norm with
  | some op =>
    let p := popWhile op.level st.stack st.dc
    { dc := p.2
      stack := { id := op.id, label := op.label, title := op.title,
                 level := op.level, acc := [] } :: p.1
      meta := extractLawMetadata norm st.meta }
  | none =>
    match parseArticle norm with
    | some a => pushInto a { st with meta := extractLawMetadata norm st.meta }
    | none =>
      match parseSection norm with
      | some s => pushInto s { st with meta := extractLawMetadata norm st.meta }
      | none => st

/-- Close all outline nodes still open at end of input, innermost
first. -/
def finishStacks : List Frame → List TreeNode → List TreeNode
  | [], dc => dc
  | f :: rest, dc =>
    match rest with
    | [] => dc ++ [finalizeFrame f]
    | g :: gs => finishStacks ({ g with acc := g.acc ++ [finalizeFrame f] } :: gs) dc
  termination_by stack _ => stack.length
  decreasing_by simp_wf

/-- Main conversion over the parsed node forest: collect the flat record
sequence, pre-extract metadata, run the stack machine over the records
and close the remaining stack. -/
def convert (roots : List PONode) : DocumentNode :=
  let norms := collectNorms roots
  let meta0 := norms.foldl (fun m n => extractLawMetadata n m) ⟨none, none⟩
  let st := norms.foldl convertStep ⟨[], [], meta0⟩
  ⟨st.meta.jurabk, st.meta.title, finishStacks st.stack st.dc⟩

/-! ### Parser-library list parser (dependency-injected variant)

The parser library's ListParser treats nested paragraphs through an injected
callback; the embedding keeps that architecture by taking the nested
paragraph parser as a function argument over an abstract paragraph type. -/

mutual

/-- List item of the parser-library schema: display label, optional
hierarchical id, mixed-content children. -/
inductive LPItem (α : Type) where
  | mk (label : Option String) (id : Option String) (children : List (LPChild α))

/-- Mixed-content child of the parser-library schema: text run, nested
paragraph of the injected paragraph type, or nested list. -/
inductive LPChild (α : Type) where
  | md (md : String)
  | para (x : α)
  | list (l : LPListNode α)

/-- List node of the parser-library schema: declared list type, optional
id, items. -/
inductive LPListNode (α : Type) where
  | mk (listType : String) (id : Option String) (children : List (LPItem α))

end

def LPItem.label {α : Type} : LPItem α → Option String
  | .mk l _ _ => l

def LPItem.id {α : Type} : LPItem α → Option String
  | .mk _ i _ => i

def LPItem.children {α : Type} : LPItem α → List (LPChild α)
  | .mk _ _ c => c

def LPListNode.listType {α : Type} : LPListNode α → String
  | .mk t _ _ => t

def LPListNode.id {α : Type} : LPListNode α → Option String
  | .mk _ i _ => i

def LPListNode.children {α : Type} : LPListNode α → List (LPItem α)
  | .mk _ _ c => c

/-- Identifier token of a list marker: the first digit run when one exists,
else the first ASCII letter lower-cased, else nothing. -/
def lpMarkerToken (m : String) : Option String :=
  match firstDigitRun m with
  | some d => some d
  | none =>
    match firstAsciiLetter m with
    | some c => some (String.mk [asciiToLower c])
    | none => none

/-- Declared list type of a definition list: the Type attribute when
truthy, else the type attribute when truthy, else arabic. -/
def lpListType (dl : PONode) : String :=
  let ty := match getAttr dl "Type" with
    | some s => if s ≠ "" then some s else none
    | none => none
  let ty2 := match ty with
    | some s => some s
    | none =>
      match getAttr dl "type" with
      | some s => if s ≠ "" then some s else none
      | none => none
  ty2.getD "arabic"

/-- Id prefix for structures nested inside a definition of the
parser-library list parser: extend a non-empty prefix by the pending
marker's token when one can be extracted, else keep the prefix. -/
def lpNestedPfx (idPfx : String) (pending : Option String) : String :=
  match pending with
  | some m =>
    if idPfx ≠ "" ∧ m ≠ "" then
      match lpMarkerToken m with
      | some t => idPfx ++ "." ++ t
      | none => idPfx
    else idPfx
  | none => idPfx

/-- Loop state of the parser-library list parser. -/
structure LPState (α : Type) where
  items : List (LPItem α)
  pending : Option String
  buf : List (LPChild α)

/-- Flush the pending item of the parser-library list parser: label from
the pending marker when non-empty; id from a non-empty prefix and the
marker's token when one can be extracted. -/
def lpFlush {α : Type} (idPfx : String) (st : LPState α) : LPState α :=
  match st.pending with
  | none =>
    if st.buf.isEmpty then st
    else { st with
           items := st.items ++ [.mk none none st.buf]
           pending := none
           buf := [] }
  | some m =>
    let label := if m = "" then none else some m
    let id := if idPfx ≠ "" ∧ m ≠ "" then
        (lpMarkerToken m).map (fun t => idPfx ++ "." ++ t)
      else none
    { st with
      items := st.items ++ [.mk label id st.buf]
      pending := none
      buf := [] }

/-- Append the trimmed text buffer to the parser-library content buffer
when non-blank. -/
def lpFlushText {α : Type} (tb : String) (buf : List (LPChild α)) : List (LPChild α) :=
  let md := jsTrim tb
  if md = "" then buf else buf ++ [.md md]

/-- Does a list-article element directly contain a definition list or a
paragraph. -/
def laHasNested (child : PONode) : Bool :=
  (childrenOf child).any (fun laChild =>
    lname laChild = some "dl" || lname laChild = some "p")

/-- Modelled from the spec: the helper assignAutomaticIds of the parser
library's converter-utils module is imported by the list parser but its
definition is not part of the sources; per the specification, items for
which no token could be extracted fall back to a positional placeholder id
rather than failing.  This models the item pass: every item that has no id
receives the base extended by its one-based position. -/
def assignAutoItemsAux {α : Type} (base : String) (i : Nat) :
    List (LPItem α) → List (LPItem α)
  | [] => []
  | it :: rest =>
    (match it.id with
     | some _ => it
     | none => LPItem.mk it.label (some (base ++ "." ++ toString (i + 1))) it.children)
      :: assignAutoItemsAux base (i + 1) rest

/-- Modelled from the spec: the item pass of assignAutomaticIds over the
whole item list, starting at position one. -/
def assignAutomaticIdsItems {α : Type} (items : List (LPItem α)) (base : String) :
    List (LPItem α) :=
  assignAutoItemsAux base 0 items

/-- Modelled from the spec: the child pass of the missing helper
assignAutomaticIds, applied to the mixed-content children of an item under
the item's id; children that already carry an id keep it, id-less
paragraphs and lists receive the positional placeholder, text runs carry
no id. -/
def assignAutomaticIdsChildren {α : Type} (paraId : α → Option String)
    (paraSetId : α → String → α) (children : List (LPChild α)) (base : String) :
    List (LPChild α) :=
  children.mapIdx (fun i c =>
    match c with
    | .md s => .md s
    | .para x =>
      (match paraId x with
       | some _ => LPChild.para x
       | none => LPChild.para (paraSetId x (base ++ "." ++ toString (i + 1))))
    | .list (.mk lt id ch) =>
      (match id with
       | some _ => LPChild.list (.mk lt id ch)
       | none => LPChild.list (.mk lt (some (base ++ "." ++ toString (i + 1))) ch)))

mutual

/-- Parser-library list parser: walk the definition-list children pairing
terms with definitions, then assign positional placeholder ids to items
that got none, propagate ids into item children, and carry the declared
list type and the prefix as the list id. -/
def listParserParse {α : Type} (pnp : PONode → String → Option α)
    (paraId : α → Option String) (paraSetId : α → String → α)
    (dl : PONode) (idPfx : String) : LPListNode α :=
  let st := lpFlush idPfx
    (lpLoop pnp paraId paraSetId idPfx (childrenOf dl)
      { items := [], pending := none, buf := [] })
  let items := assignAutomaticIdsItems st.items (if idPfx ≠ "" then idPfx else "list")
  let items2 := items.map (fun it =>
    match it.id with
    | some v => LPItem.mk it.label it.id (assignAutomaticIdsChildren paraId paraSetId it.children v)
    | none => it)
  .mk (lpListType dl) (if idPfx ≠ "" then some idPfx else none) items2
  termination_by (sizeOf dl, 0)
  decreasing_by
    simp_wf
    have := sizeOf_childrenOf_lt dl
    omega

/-- Loop of the parser-library list parser over the definition-list
children: a term flushes and holds its marker pending; a definition or
list-article processes its parts recursively and flushes the text
buffer. -/
def lpLoop {α : Type} (pnp : PONode → String → Option α)
    (paraId : α → Option String) (paraSetId : α → String → α) (idPfx : String) :
    List PONode → LPState α → LPState α
  | [], st => st
  | node :: rest, st =>
    match lname node with
    | some t =>
      if t = "dt" then
        let st1 := lpFlush idPfx st
        lpLoop pnp paraId paraSetId idPfx rest
          { st1 with pending := some (jsTrim (renderInlineToMd (childrenOf node))) }
      else if t = "dd" ∨ t = "la" then
        let acc := lpPartsLoop pnp paraId paraSetId idPfx st.pending
          (childrenOf node) ("", st.buf)
        lpLoop pnp paraId paraSetId idPfx rest
          { st with buf := lpFlushText acc.1 acc.2 }
      else lpLoop pnp paraId paraSetId idPfx rest st
    | none => lpLoop pnp paraId paraSetId idPfx rest st
  termination_by nodes _ => (sizeOf nodes, 0)
  decreasing_by
    all_goals simp_wf
    all_goals try have hcn := sizeOf_childrenOf_lt node
    all_goals try simp only [List.cons.sizeOf_spec] at *
    all_goals
      first
      | (apply Prod.Lex.left; omega)
      | (apply Prod.Lex.right; omega)
      | omega

/-- Process each part of a definition recursively. -/
def lpPartsLoop {α : Type} (pnp : PONode → String → Option α)
    (paraId : α → Option String) (paraSetId : α → String → α)
    (idPfx : String) (pending : Option String) :
    List PONode → String × List (LPChild α) → String × List (LPChild α)
  | [], acc => acc
  | part :: rest, acc =>
    lpPartsLoop pnp paraId paraSetId idPfx pending rest
      (lpProcCR pnp paraId paraSetId idPfx pending part acc)
  termination_by parts _ => (sizeOf parts, 0)
  decreasing_by
    all_goals simp_wf
    all_goals try have hcn := sizeOf_childrenOf_lt node
    all_goals try have hce := sizeOf_childrenOf_lt element
    all_goals try have hcc := sizeOf_childrenOf_lt child
    all_goals try simp only [List.cons.sizeOf_spec] at *
    all_goals
      first
      | (apply Prod.Lex.left; omega)
      | (apply Prod.Lex.right; omega)
      | omega

/-- Recursive content processing of one element inside a definition: text
is buffered; a definition list or paragraph flushes the buffer and
recurses with the extended prefix; a list-article recurses into its
children; any other element is scanned for nested definition lists or
paragraphs, processing those when found and rendering the whole element
inline otherwise. -/
def lpProcCR {α : Type} (pnp : PONode → String → Option α)
    (paraId : α → Option String) (paraSetId : α → String → α)
    (idPfx : String) (pending : Option String) (element : PONode)
    (acc : String × List (LPChild α)) : String × List (LPChild α) :=
  match lname element with
  | none => (acc.1 ++ textOf element, acc.2)
  | some et =>
    if et = "dl" then
      ("", lpFlushText acc.1 acc.2 ++
        [.list (listParserParse pnp paraId paraSetId element (lpNestedPfx idPfx pending))])
    else if et = "p" then
      let buf2 := lpFlushText acc.1 acc.2
      match pnp element (lpNestedPfx idPfx pending) with
      | some pr => ("", buf2 ++ [.para pr])
      | none => ("", buf2)
    else if et = "la" then
      lpPartsLoop pnp paraId paraSetId idPfx pending (childrenOf element) acc
    else
      let scan := lpOtherLoop pnp paraId paraSetId idPfx pending
        (childrenOf element) acc false
      if scan.2 then scan.1
      else (acc.1 ++ renderInlineOne element, acc.2)
  termination_by (sizeOf element, 1)
  decreasing_by
    all_goals simp_wf
    all_goals try have hcn := sizeOf_childrenOf_lt node
    all_goals try have hce := sizeOf_childrenOf_lt element
    all_goals try have hcc := sizeOf_childrenOf_lt child
    all_goals try simp only [List.cons.sizeOf_spec] at *
    all_goals
      first
      | (apply Prod.Lex.left; omega)
      | (apply Prod.Lex.right; omega)
      | omega

/-- Scan the children of an unrecognized element: definition lists and
paragraphs are processed recursively after a text flush, list-articles
that directly contain one are processed the same way, everything else is
skipped; the flag records whether anything nested was found. -/
def lpOtherLoop {α : Type} (pnp : PONode → String → Option α)
    (paraId : α → Option String) (paraSetId : α → String → α)
    (idPfx : String) (pending : Option String) :
    List PONode → String × List (LPChild α) → Bool →
    (String × List (LPChild α)) × Bool
  | [], acc, found => (acc, found)
  | child :: rest, acc, found =>
    match lname child with
    | some ct =>
      if ct = "dl" ∨ ct = "p" then
        lpOtherLoop pnp paraId paraSetId idPfx pending rest
          (lpProcCR pnp paraId paraSetId idPfx pending child
            ("", lpFlushText acc.1 acc.2)) true
      else if ct = "la" then
        if laHasNested child then
          lpOtherLoop pnp paraId paraSetId idPfx pending rest
            (lpProcCR pnp paraId paraSetId idPfx pending child
              ("", lpFlushText acc.1 acc.2)) true
        else lpOtherLoop pnp paraId paraSetId idPfx pending rest acc found
      else lpOtherLoop pnp paraId paraSetId idPfx pending rest acc found
    | none => lpOtherLoop pnp paraId paraSetId idPfx pending rest acc found
  termination_by children _ _ => (sizeOf children, 0)
  decreasing_by
    all_goals simp_wf
    all_goals try have hcn := sizeOf_childrenOf_lt node
    all_goals try have hce := sizeOf_childrenOf_lt element
    all_goals try have hcc := sizeOf_childrenOf_lt child
    all_goals try simp only [List.cons.sizeOf_spec] at *
    all_goals
      first
      | (apply Prod.Lex.left; omega)
      | (apply Prod.Lex.right; omega)
      | omega

end

/-! ### Table colspan -/

/-- Index of the first occurrence of a name in the column-name list, or -1
when absent (JavaScript Array.indexOf). -/
def jsIndexOf (names : List String) (x : String) : Int :=
  match names.indexOf? x with
  | some i => (i : Int)
  | none => -1

/-- Column span of a table cell: when both a start and an end column name
are given and both resolve in the column-name list, the difference of their
indices plus one, otherwise 1. -/
def calculateColspan (namest nameend : Option String) (columnNames : List String) : Int :=
  match namest, nameend with
  | some st, some en =>
    let startIndex := jsIndexOf columnNames st
    let endIndex := jsIndexOf columnNames en
    if startIndex = -1 || endIndex = -1 then 1
    else endIndex - startIndex + 1
  | _, _ => 1

end Law2Json

namespace Law2Json

/-! ### Concrete example inputs for the citation-label claims -/

/-- A record whose citation label is Art. 5. -/
def c7ArtNorm : PONode :=
  .elem "norm" [] [.elem "metadaten" [] [.elem "enbez" [] [.text "Art. 5"]]]

/-- A record whose citation label is the table-of-contents heading. -/
def c7SecNorm : PONode :=
  .elem "norm" [] [.elem "metadaten" [] [.elem "enbez" [] [.text "Inhaltsübersicht"]]]

/-- A record with metadata but neither a citation label nor an outline
unit. -/
def c7EmptyNorm : PONode :=
  .elem "norm" [] [.elem "metadaten" [] [.elem "standangabe" [] [.text "x"]]]


/-- Example definition list whose first term marker is a lower-case
letter. -/
def c2Dl : PONode :=
  .elem "DL" [] [.elem "DT" [] [.text "a)"], .elem "DD" [] [.text "x"]]

/-- The first term of the example list. -/
def c2Dt : PONode := .elem "DT" [] [.text "a)"]

/-- Paragraph whose content is the text of scenario 1. -/
def c1P1 : PONode := .elem "P" [] [.text "(1) Example text"]

/-- A nested definition list used by the numbering edge case. -/
def c1Dl : PONode :=
  .elem "DL" [] [.elem "DT" [] [.text "1."], .elem "DD" [] [.text "x"]]

/-- Paragraph whose only leading text is the numbering marker, followed
immediately by a nested list. -/
def c1Edge : PONode := .elem "P" [] [.text "(1) ", c1Dl]


/-- Definition list whose first term is numbered but whose second term is
empty: classified ordered, yet the second item comes out unlabeled. -/
def c5Dl : PONode :=
  .elem "DL" [] [.elem "DT" [] [.text "1."], .elem "DD" [] [.text "x"],
    .elem "DT" [] [], .elem "DD" [] [.text "y"]]

/-- Definition list whose first term is the bullet character. -/
def c5Bullet : PONode :=
  .elem "DL" [] [.elem "DT" [] [.text "•"], .elem "DD" [] [.text "a"]]

/-- Ordered definition list with a single numbered term. -/
def c5Ord : PONode :=
  .elem "DL" [] [.elem "DT" [] [.text "1."], .elem "DD" [] [.text "x"]]

/-- Ordered-labels invariant of the list-parser state: once the list is
classified ordered, every emitted item carries a non-empty label and a
non-empty marker is pending. -/
def orderedInv (st : LState) : Prop :=
  st.kind = .ordered →
    (∀ it ∈ st.items, ∃ s, it.label = some s ∧ s ≠ "") ∧
    (∃ m, st.pending = some m ∧ m ≠ "")


/-- Malformed definition list: definition content before the first term and
a trailing term with no definition. -/
def c10Dl : PONode :=
  .elem "DL" [] [.elem "DD" [] [.text "pre"], .elem "DT" [] [.text "1."],
    .elem "DD" [] [.text "x"], .elem "DT" [] [.text "2."]]

/-- Leading-item invariant: either no item has been emitted yet and unlabeled
content is buffered, or the first emitted item is unlabeled with no id. -/
def leadInv (st : LState) : Prop :=
  (st.items = [] ∧ st.pending = none ∧ st.buf ≠ []) ∨
  (∃ ch tail, st.items = .mk none none ch :: tail)


/-- Definition list whose only term is the bullet marker, carrying no
extractable token. -/
def c6Dl : PONode :=
  .elem "DL" [] [.elem "DT" [] [.text "•"], .elem "DD" [] [.text "x"]]


/-- Numbered example paragraph for the id-shape claims. -/
def c9P1 : PONode := .elem "P" [] [.text "(1) Example text"]

/-- Shape of a list item's hierarchical id: absent, or the inherited prefix
extended by a dot and a local token. -/
def c9IdShape (pfx : String) (it : ListItemNode) : Prop :=
  it.id = none ∨ ∃ d, it.id = some (pfx ++ "." ++ d)

/-- Outline record with the given code and a fixed label. -/
def c3Norm (code : String) : PONode :=
  .elem "norm" [] [.elem "metadaten" [] [.elem "gliederungseinheit" []
    [.elem "gliederungskennzahl" [] [.text code],
     .elem "gliederungsbez" [] [.text "Abschnitt"]]]]

/-- Records whose outline levels skip from 1 to 3 and then repeat 3. -/
def c3Roots : List PONode := [c3Norm "05", c3Norm "05001001", c3Norm "05001002"]

/-- Records whose outline levels are the chain 1, 2, 3. -/
def c3GoodRoots : List PONode := [c3Norm "05", c3Norm "05001", c3Norm "05001001"]

theorem sizeOf_tn_children_lt (id label : String) (title : Option String)
    (kids : List TreeNode) : sizeOf kids < sizeOf (TreeNode.outline id label title kids) := by
  simp only [TreeNode.outline.sizeOf_spec]
  omega

theorem sizeOf_tn_head_lt (a : TreeNode) (l : List TreeNode) :
    sizeOf a < sizeOf (a :: l) := by
  simp only [List.cons.sizeOf_spec]
  omega

theorem sizeOf_tn_tail_lt (a : TreeNode) (l : List TreeNode) :
    sizeOf l < sizeOf (a :: l) := by
  simp only [List.cons.sizeOf_spec]
  omega

mutual

/-- Depth correctness of an outline subtree: an Outline node expected at
depth d has exactly that computed level and its outline children sit at
depth d+1; articles and sections are unconstrained. -/
def outlineOk (d : Nat) : TreeNode → Bool
  | .outline id _ _ kids =>
    decide (levelFromCode id = d) && outlineOkList (d + 1) kids
  | .article _ _ _ _ _ _ => true
  | .section _ _ _ => true
  termination_by t => sizeOf t
  decreasing_by
    all_goals simp_wf
    all_goals exact sizeOf_tn_children_lt _ _ _ _

/-- Depth correctness over a list of siblings at the given depth. -/
def outlineOkList (d : Nat) : List TreeNode → Bool
  | [] => true
  | k :: rest => outlineOk d k && outlineOkList d rest
  termination_by l => sizeOf l
  decreasing_by
    all_goals simp_wf
    all_goals first
      | exact sizeOf_tn_head_lt _ _
      | exact sizeOf_tn_tail_lt _ _

end

/-- Well-formed assembler stack: open levels descend from the stack length
down to one, each frame's code computes its level, and each frame's
accumulated children are depth-correct one level below it. -/
def framesOk : List Frame → Prop
  | [] => True
  | f :: rest => f.level = rest.length + 1 ∧ levelFromCode f.id = f.level ∧
      outlineOkList (f.level + 1) f.acc = true ∧ framesOk rest

/-- Levels of the outline records of a record sequence, in order. -/
def outlineLevels (norms : List PONode) : List Nat :=
  norms.filterMap (fun n => (parseOutline n).map (fun op => op.level))

/-- No-skip chain condition on outline levels: each level is at least one
and exceeds its predecessor by at most one (the first level must be
exactly one). -/
def chainOk : Nat → List Nat → Bool
  | _, [] => true
  | cur, l :: rest => decide (1 ≤ l) && decide (l ≤ cur + 1) && chainOk l rest

/-! ## Theorems about the specified properties -/

/-! ### Helper lemmas about the list-parser loop and marker classes -/

theorem liFlush_kind (idPfx : String) (st : LState) :
    (liFlush idPfx st).kind = st.kind ∧ (liFlush idPfx st).style = st.style ∧
    (liFlush idPfx st).symbol = st.symbol := by
  cases hp : st.pending <;> simp [liFlush, hp] <;> split <;> simp

theorem liFlush_items_mono (idPfx : String) (st : LState) (h : st.items ≠ []) :
    (liFlush idPfx st).items ≠ [] := by
  cases hp : st.pending <;> simp only [liFlush, hp] <;> try split
  all_goals simp_all

theorem liFlush_items_of_pending (idPfx : String) (st : LState) (m : String)
    (h : st.pending = some m) : (liFlush idPfx st).items ≠ [] := by
  simp only [liFlush, h]
  simp

theorem listLoop_freeze (nodes : List PONode) (idPfx : String) (st : LState)
    (hJ : st.pending ≠ none ∨ st.items ≠ []) :
    (listLoop nodes idPfx st).kind = st.kind ∧
    (listLoop nodes idPfx st).style = st.style ∧
    (listLoop nodes idPfx st).symbol = st.symbol ∧
    ((listLoop nodes idPfx st).pending ≠ none ∨ (listLoop nodes idPfx st).items ≠ []) := by
  induction nodes generalizing st with
  | nil =>
    refine ⟨by simp [listLoop], by simp [listLoop], by simp [listLoop], ?_⟩
    simp only [listLoop]
    exact hJ
  | cons node rest ih =>
    rw [listLoop]
    cases hn : lname node with
    | none => exact ih st hJ
    | some t =>
      dsimp only
      by_cases ht : t = "dt"
      · rw [if_pos ht]
        have hfl : (liFlush idPfx st).items ≠ [] := by
          cases hJ with
          | inl hp =>
            cases hpp : st.pending with
            | none => exact absurd hpp hp
            | some m => exact liFlush_items_of_pending idPfx st m hpp
          | inr hi => exact liFlush_items_mono idPfx st hi
        rw [if_neg (fun h => hfl (List.isEmpty_iff.mp h))]
        obtain ⟨k1, k2, k3, k4⟩ := ih
          { liFlush idPfx st with
            pending := some (jsTrim (renderInlineToMd (childrenOf node))) }
          (Or.inl (by simp))
        refine ⟨?_, ?_, ?_, k4⟩
        · rw [k1]; exact (liFlush_kind idPfx st).1
        · rw [k2]; exact (liFlush_kind idPfx st).2.1
        · rw [k3]; exact (liFlush_kind idPfx st).2.2
      · rw [if_neg ht]
        by_cases hdd : t = "dd" ∨ t = "la"
        · rw [if_pos hdd]
          exact ih _ hJ
        · rw [if_neg hdd]
          exact ih st hJ

theorem liFlush_init (idPfx : String) : liFlush idPfx initLState = initLState := by
  simp [liFlush, initLState]

theorem parseList_head_dt (dl dt0 : PONode) (rest : List PONode) (idPfx : String)
    (hc : childrenOf dl = dt0 :: rest) (hdt : lname dt0 = some "dt") :
    (parseList dl idPfx).kind =
      (classifyMarker (jsTrim (renderInlineToMd (childrenOf dt0)))).kind ∧
    (parseList dl idPfx).style =
      (classifyMarker (jsTrim (renderInlineToMd (childrenOf dt0)))).style ∧
    (parseList dl idPfx).symbol =
      (if (classifyMarker (jsTrim (renderInlineToMd (childrenOf dt0)))).kind = .unordered ∧
          (classifyMarker (jsTrim (renderInlineToMd (childrenOf dt0)))).style = .custom ∧
          optTruthy (classifyMarker (jsTrim (renderInlineToMd (childrenOf dt0)))).symbol
       then (classifyMarker (jsTrim (renderInlineToMd (childrenOf dt0)))).symbol
       else none) := by
  unfold parseList
  rw [hc, listLoop, hdt]
  dsimp only
  rw [if_pos rfl, liFlush_init]
  rw [if_pos (show initLState.items.isEmpty = true from rfl)]
  obtain ⟨k1, k2, k3, _⟩ := listLoop_freeze rest idPfx
    { initLState with
      kind := (classifyMarker (jsTrim (renderInlineToMd (childrenOf dt0)))).kind
      style := (classifyMarker (jsTrim (renderInlineToMd (childrenOf dt0)))).style
      symbol := (classifyMarker (jsTrim (renderInlineToMd (childrenOf dt0)))).symbol
      pending := some (jsTrim (renderInlineToMd (childrenOf dt0))) }
    (Or.inl (by simp))
  have hfk := liFlush_kind idPfx (listLoop rest idPfx
    { initLState with
      kind := (classifyMarker (jsTrim (renderInlineToMd (childrenOf dt0)))).kind
      style := (classifyMarker (jsTrim (renderInlineToMd (childrenOf dt0)))).style
      symbol := (classifyMarker (jsTrim (renderInlineToMd (childrenOf dt0)))).symbol
      pending := some (jsTrim (renderInlineToMd (childrenOf dt0))) })
  simp only [ListNode.kind, ListNode.style, ListNode.symbol, hfk.1, hfk.2.1,
             hfk.2.2, k1, k2, k3]
  exact ⟨trivial, trivial, trivial⟩


theorem renderInlineList_nil : renderInlineList [] = "" := by
  rw [renderInlineList]

theorem renderInlineList_cons (n : PONode) (ns : List PONode) :
    renderInlineList (n :: ns) = renderInlineOne n ++ renderInlineList ns := by
  rw [renderInlineList]

theorem renderInlineOne_text (s : String) : renderInlineOne (.text s) = s := by
  rw [renderInlineOne]

theorem listLoop_nil (idPfx : String) (st : LState) : listLoop [] idPfx st = st := by
  rw [listLoop]

theorem listLoop_cons_dt (node : PONode) (rest : List PONode) (idPfx : String)
    (st : LState) (h : lname node = some "dt") :
    listLoop (node :: rest) idPfx st =
      listLoop rest idPfx
        (if (liFlush idPfx st).items.isEmpty then
          { liFlush idPfx st with
            kind := (classifyMarker (jsTrim (renderInlineToMd (childrenOf node)))).kind
            style := (classifyMarker (jsTrim (renderInlineToMd (childrenOf node)))).style
            symbol := (classifyMarker (jsTrim (renderInlineToMd (childrenOf node)))).symbol
            pending := some (jsTrim (renderInlineToMd (childrenOf node))) }
        else
          { liFlush idPfx st with
            pending := some (jsTrim (renderInlineToMd (childrenOf node))) }) := by
  rw [listLoop, h]
  dsimp only
  rw [if_pos rfl]

theorem listLoop_cons_dd (node : PONode) (rest : List PONode) (idPfx : String)
    (st : LState) (t : String) (h : lname node = some t)
    (hd : t = "dd" ∨ t = "la") :
    listLoop (node :: rest) idPfx st =
      listLoop rest idPfx
        { st with buf := flushTextInto (ddLoop (childrenOf node) idPfx st.pending ("", st.buf)).1 (ddLoop (childrenOf node) idPfx st.pending ("", st.buf)).2 } := by
  rw [listLoop, h]
  dsimp only
  rw [if_neg (by rcases hd with h | h <;> simp [h]), if_pos hd]

theorem ddLoop_nil (idPfx : String) (p : Option String) (acc : String × List LiChild) :
    ddLoop [] idPfx p acc = acc := by
  rw [ddLoop]

theorem ddLoop_text (s : String) (rest : List PONode) (idPfx : String)
    (p : Option String) (acc : String × List LiChild) :
    ddLoop (.text s :: rest) idPfx p acc = ddLoop rest idPfx p (acc.1 ++ s, acc.2) := by
  rw [ddLoop]
  dsimp only [lname, textOf]

/-- Unfolded form of parseList: the final flush of the loop state, label
clearing for unordered lists, and the symbol condition. -/
theorem parseList_eq (dl : PONode) (idPfx : String) :
    parseList dl idPfx =
      (let st := liFlush idPfx (listLoop (childrenOf dl) idPfx initLState)
       ListNode.mk st.kind st.style
        (if st.kind = .unordered ∧ st.style = .custom ∧ optTruthy st.symbol
          then st.symbol else none)
        (if st.kind = .unordered then st.items.map clearLabel else st.items)) := by
  rw [parseList]

/-- Ordered-labels invariant of the list-parser state: once the list is
classified ordered, every emitted item carries a non-empty label and a
non-empty marker is pending. -/

theorem liFlush_labels (idPfx : String) (st : LState) (h : orderedInv st)
    (hk : st.kind = .ordered) :
    ∀ it ∈ (liFlush idPfx st).items, ∃ s, it.label = some s ∧ s ≠ "" := by
  obtain ⟨hitems, m, hp, hm⟩ := h hk
  simp only [liFlush, hp]
  intro it hit
  rcases List.mem_append.1 hit with h1 | h1
  · exact hitems it h1
  · rcases List.mem_singleton.1 h1 with rfl
    refine ⟨m, ?_, hm⟩
    simp only [ListItemNode.label, if_neg hm]

theorem listLoop_orderedInv (nodes : List PONode) (idPfx : String) (st : LState)
    (H : ∀ n ∈ nodes, lname n = some "dt" →
      jsTrim (renderInlineToMd (childrenOf n)) ≠ "")
    (h : orderedInv st) : orderedInv (listLoop nodes idPfx st) := by
  induction nodes generalizing st with
  | nil => rw [listLoop]; exact h
  | cons node rest ih =>
    rw [listLoop]
    have Hrest : ∀ n ∈ rest, lname n = some "dt" →
        jsTrim (renderInlineToMd (childrenOf n)) ≠ "" :=
      fun n hn => H n (List.mem_cons_of_mem _ hn)
    cases hn : lname node with
    | none => exact ih _ Hrest h
    | some t =>
      dsimp only
      by_cases hdt : t = "dt"
      · rw [if_pos hdt]
        apply ih _ Hrest
        have hmk : jsTrim (renderInlineToMd (childrenOf node)) ≠ "" := by
          apply H node (List.mem_cons_self _ _)
          rw [hn, hdt]
        by_cases he : (liFlush idPfx st).items.isEmpty
        · rw [if_pos he]
          intro _
          refine ⟨?_, _, rfl, hmk⟩
          intro it hit
          have he2 : (liFlush idPfx st).items = [] := by
            simpa using he
          have hit2 : it ∈ (liFlush idPfx st).items := hit
          rw [he2] at hit2
          simp at hit2
        · rw [if_neg he]
          intro hk
          have h1 : (liFlush idPfx st).kind = ListKind.ordered := hk
          rw [(liFlush_kind idPfx st).1] at h1
          refine ⟨?_, _, rfl, hmk⟩
          intro it hit
          exact liFlush_labels idPfx st h h1 it hit
      · rw [if_neg hdt]
        by_cases hdd : t = "dd" ∨ t = "la"
        · rw [if_pos hdd]
          apply ih _ Hrest
          intro hk
          exact h hk
        · rw [if_neg hdd]; exact ih _ Hrest h

theorem parseList_labels_unordered (dl : PONode) (idPfx : String)
    (hk : (parseList dl idPfx).kind = .unordered) :
    ∀ it ∈ (parseList dl idPfx).children, it.label = none := by
  rw [parseList_eq] at hk ⊢
  dsimp only at hk ⊢
  dsimp only [ListNode.kind, ListNode.children] at hk ⊢
  rw [if_pos hk]
  intro it hit
  obtain ⟨j, hj, rfl⟩ := List.mem_map.1 hit
  cases j with
  | mk l i c => rfl

theorem parseList_labels_ordered (dl : PONode) (idPfx : String)
    (H : ∀ n ∈ childrenOf dl, lname n = some "dt" →
      jsTrim (renderInlineToMd (childrenOf n)) ≠ "")
    (hk : (parseList dl idPfx).kind = .ordered) :
    ∀ it ∈ (parseList dl idPfx).children, ∃ s, it.label = some s ∧ s ≠ "" := by
  have hinv : orderedInv (listLoop (childrenOf dl) idPfx initLState) :=
    listLoop_orderedInv _ idPfx initLState H
      (by intro hko; exact absurd hko (by decide))
  rw [parseList_eq] at hk ⊢
  dsimp only at hk ⊢
  dsimp only [ListNode.kind, ListNode.children] at hk ⊢
  have hks : (listLoop (childrenOf dl) idPfx initLState).kind = ListKind.ordered := by
    rw [← (liFlush_kind idPfx _).1]
    exact hk
  rw [if_neg (by rw [hk]; decide)]
  exact liFlush_labels idPfx _ hinv hks

theorem parseList_c5Bullet_eq :
    parseList c5Bullet "" =
      .mk .unordered .bullet none [.mk none none [.md "a"]] := by
  have hr1 : renderInlineToMd (childrenOf (PONode.elem "DT" [] [PONode.text "•"])) = "•" := by
    simp only [childrenOf]
    rw [renderInlineToMd, renderInlineList_cons, renderInlineOne_text, renderInlineList_nil]
    rfl
  rw [parseList]
  simp only [c5Bullet, childrenOf]
  rw [listLoop_cons_dt (PONode.elem "DT" [] [PONode.text "•"]) _ _ _ (by decide), hr1]
  rw [listLoop_cons_dd (PONode.elem "DD" [] [PONode.text "a"]) _ _ _ "dd" (by decide) (Or.inl rfl)]
  simp only [childrenOf]
  rw [ddLoop_text, ddLoop_nil]
  rw [listLoop_nil]
  rfl

theorem parseList_c5Ord_eq :
    parseList c5Ord "" =
      .mk .ordered .arabic none [.mk (some "1.") none [.md "x"]] := by
  have hr1 : renderInlineToMd (childrenOf (PONode.elem "DT" [] [PONode.text "1."])) = "1." := by
    simp only [childrenOf]
    rw [renderInlineToMd, renderInlineList_cons, renderInlineOne_text, renderInlineList_nil]
    rfl
  rw [parseList]
  simp only [c5Ord, childrenOf]
  rw [listLoop_cons_dt (PONode.elem "DT" [] [PONode.text "1."]) _ _ _ (by decide), hr1]
  rw [listLoop_cons_dd (PONode.elem "DD" [] [PONode.text "x"]) _ _ _ "dd" (by decide) (Or.inl rfl)]
  simp only [childrenOf]
  rw [ddLoop_text, ddLoop_nil]
  rw [listLoop_nil]
  rfl

theorem c5_ord_marker_ne (n : PONode) (hn : n ∈ childrenOf c5Ord)
    (hdt : lname n = some "dt") :
    jsTrim (renderInlineToMd (childrenOf n)) ≠ "" := by
  simp only [c5Ord, childrenOf, List.mem_cons, List.not_mem_nil, or_false] at hn
  rcases hn with rfl | rfl
  · have hr1 : renderInlineToMd (childrenOf (PONode.elem "DT" [] [PONode.text "1."])) = "1." := by
      simp only [childrenOf]
      rw [renderInlineToMd, renderInlineList_cons, renderInlineOne_text, renderInlineList_nil]
      rfl
    rw [hr1]
    decide
  · exact absurd hdt (by decide)

theorem parseList_c5Dl_eq :
    parseList c5Dl "" =
      .mk .ordered .arabic none
        [.mk (some "1.") none [.md "x"], .mk none none [.md "y"]] := by
  have hr1 : renderInlineToMd (childrenOf (PONode.elem "DT" [] [PONode.text "1."])) = "1." := by
    simp only [childrenOf]
    rw [renderInlineToMd, renderInlineList_cons, renderInlineOne_text, renderInlineList_nil]
    rfl
  have hr2 : renderInlineToMd (childrenOf (PONode.elem "DT" ([] : List (String × String)) ([] : List PONode))) = "" := by
    simp only [childrenOf]
    rw [renderInlineToMd, renderInlineList_nil]
  rw [parseList]
  simp only [c5Dl, childrenOf]
  rw [listLoop_cons_dt (PONode.elem "DT" [] [PONode.text "1."]) _ _ _ (by decide), hr1]
  rw [listLoop_cons_dd (PONode.elem "DD" [] [PONode.text "x"]) _ _ _ "dd" (by decide) (Or.inl rfl)]
  simp only [childrenOf]
  rw [ddLoop_text, ddLoop_nil]
  rw [listLoop_cons_dt (PONode.elem "DT" [] []) _ _ _ (by decide), hr2]
  rw [listLoop_cons_dd (PONode.elem "DD" [] [PONode.text "y"]) _ _ _ "dd" (by decide) (Or.inl rfl)]
  simp only [childrenOf]
  rw [ddLoop_text, ddLoop_nil]
  rw [listLoop_nil]
  rfl

/-- C5: in every parsed List node, an unordered kind forces every item label
to be absent; the bullet-first scenario parses to an unordered bullet list
with a single unlabeled item. The ordered half of the claim holds only when
every term of the definition list carries a non-empty marker (amended): an
ordered list may contain an unlabeled item when a later term is empty. -/
theorem c5_label_invariant :
    (∀ dl idPfx, (parseList dl idPfx).kind = .unordered →
        ∀ it ∈ (parseList dl idPfx).children, it.label = none) ∧
    (∀ dl idPfx,
        (∀ n ∈ childrenOf dl, lname n = some "dt" →
          jsTrim (renderInlineToMd (childrenOf n)) ≠ "") →
        (parseList dl idPfx).kind = .ordered →
        ∀ it ∈ (parseList dl idPfx).children,
          ∃ s, it.label = some s ∧ s ≠ "") ∧
    parseList c5Bullet "" =
      .mk .unordered .bullet none [.mk none none [.md "a"]] :=
  ⟨parseList_labels_unordered, parseList_labels_ordered, parseList_c5Bullet_eq⟩

/-- Counterexample to C5's unconditional ordered half: a definition list
with terms 1. and an empty term parses to an ordered list containing an
item with no label. -/
theorem c5_label_invariant_cex :
    (parseList c5Dl "").kind = .ordered ∧
      ∃ it ∈ (parseList c5Dl "").children, it.label = none := by
  rw [parseList_c5Dl_eq]
  exact ⟨rfl, ListItemNode.mk none none [LiChild.md "y"],
    List.mem_cons_of_mem _ (List.mem_cons_self _ _), rfl⟩

/-- Witness for C5's universal parts at concrete bullet and numbered
definition lists. -/
theorem c5_label_invariant_witness :
    (∀ it ∈ (parseList c5Bullet "").children, it.label = none) ∧
    (∀ it ∈ (parseList c5Ord "").children, ∃ s, it.label = some s ∧ s ≠ "") :=
  ⟨c5_label_invariant.1 c5Bullet "" (by rw [parseList_c5Bullet_eq]; rfl),
   c5_label_invariant.2.1 c5Ord "" c5_ord_marker_ne (by rw [parseList_c5Ord_eq]; rfl)⟩



theorem flushTextInto_ne (tb : String) (buf : List LiChild) (h : buf ≠ []) :
    flushTextInto tb buf ≠ [] := by
  unfold flushTextInto
  dsimp only
  split
  · exact h
  · simp

theorem ddLoop_buf_ne (parts : List PONode) (idPfx : String) (p : Option String)
    (acc : String × List LiChild) (h : acc.2 ≠ []) :
    (ddLoop parts idPfx p acc).2 ≠ [] := by
  induction parts generalizing acc with
  | nil => rw [ddLoop]; exact h
  | cons part rest ih =>
    rw [ddLoop]
    cases hn : lname part with
    | none => exact ih _ h
    | some pt =>
      dsimp only
      by_cases h1 : pt = "dl"
      · rw [if_pos h1]
        exact ih _ (by simp)
      · rw [if_neg h1]
        by_cases h2 : pt = "p"
        · rw [if_pos h2]
          exact ih _ (by simp)
        · rw [if_neg h2]
          exact ih _ h

theorem liFlush_buf_nil (idPfx : String) (st : LState) :
    (liFlush idPfx st).buf = [] := by
  cases hp : st.pending <;> simp only [liFlush, hp]
  · split
    · next h => exact List.isEmpty_iff.mp h
    · rfl

theorem liFlush_items_of_buf (idPfx : String) (st : LState)
    (hp : st.pending = none) (hb : st.buf ≠ []) :
    (liFlush idPfx st).items = st.items ++ [.mk none none st.buf] := by
  simp only [liFlush, hp]
  rw [if_neg (fun h => hb (List.isEmpty_iff.mp h))]

theorem liFlush_last (idPfx : String) (st : LState) (m : String)
    (hp : st.pending = some m) :
    ∃ lbl idv, (liFlush idPfx st).items = st.items ++ [.mk lbl idv st.buf] := by
  simp only [liFlush, hp]
  exact ⟨_, _, rfl⟩

theorem listLoop_freeze2 (nodes : List PONode) (idPfx : String) (st : LState)
    (hJ : st.pending ≠ none ∨ st.items ≠ [] ∨ st.buf ≠ []) :
    (listLoop nodes idPfx st).kind = st.kind ∧
    (listLoop nodes idPfx st).style = st.style ∧
    (listLoop nodes idPfx st).symbol = st.symbol := by
  induction nodes generalizing st with
  | nil => rw [listLoop]; exact ⟨rfl, rfl, rfl⟩
  | cons node rest ih =>
    rw [listLoop]
    cases hn : lname node with
    | none => exact ih st hJ
    | some t =>
      dsimp only
      by_cases ht : t = "dt"
      · rw [if_pos ht]
        have hfl : (liFlush idPfx st).items ≠ [] := by
          rcases hJ with hp | hi | hb
          · cases hpp : st.pending with
            | none => exact absurd hpp hp
            | some m => exact liFlush_items_of_pending idPfx st m hpp
          · exact liFlush_items_mono idPfx st hi
          · cases hpp : st.pending with
            | none =>
              rw [liFlush_items_of_buf idPfx st hpp hb]
              simp
            | some m => exact liFlush_items_of_pending idPfx st m hpp
        rw [if_neg (fun h => hfl (List.isEmpty_iff.mp h))]
        obtain ⟨k1, k2, k3⟩ := ih
          { liFlush idPfx st with
            pending := some (jsTrim (renderInlineToMd (childrenOf node))) }
          (Or.inl (by simp))
        refine ⟨?_, ?_, ?_⟩
        · rw [k1]; exact (liFlush_kind idPfx st).1
        · rw [k2]; exact (liFlush_kind idPfx st).2.1
        · rw [k3]; exact (liFlush_kind idPfx st).2.2
      · rw [if_neg ht]
        by_cases hdd : t = "dd" ∨ t = "la"
        · rw [if_pos hdd]
          apply ih
          rcases hJ with hp | hi | hb
          · exact Or.inl hp
          · exact Or.inr (Or.inl hi)
          · refine Or.inr (Or.inr ?_)
            exact flushTextInto_ne _ _ (ddLoop_buf_ne _ _ _ _ hb)
        · rw [if_neg hdd]
          exact ih st hJ

/-- Leading-item invariant: either no item has been emitted yet and unlabeled
content is buffered, or the first emitted item is unlabeled with no id. -/

theorem liFlush_leadInv (idPfx : String) (st : LState) (h : leadInv st) :
    ∃ ch tail, (liFlush idPfx st).items = ListItemNode.mk none none ch :: tail := by
  rcases h with ⟨hi, hp, hb⟩ | ⟨ch, tail, hi⟩
  · rw [liFlush_items_of_buf idPfx st hp hb, hi]
    exact ⟨st.buf, [], rfl⟩
  · cases hpp : st.pending with
    | none =>
      simp only [liFlush, hpp]
      split
      · exact ⟨ch, tail, hi⟩
      · exact ⟨ch, tail ++ [.mk none none st.buf], by rw [hi]; rfl⟩
    | some m =>
      obtain ⟨lbl, idv, he⟩ := liFlush_last idPfx st m hpp
      exact ⟨ch, tail ++ [.mk lbl idv st.buf], by rw [he, hi]; rfl⟩

theorem listLoop_leadInv (nodes : List PONode) (idPfx : String) (st : LState)
    (h : leadInv st) : leadInv (listLoop nodes idPfx st) := by
  induction nodes generalizing st with
  | nil => rw [listLoop]; exact h
  | cons node rest ih =>
    rw [listLoop]
    cases hn : lname node with
    | none => exact ih st h
    | some t =>
      dsimp only
      by_cases ht : t = "dt"
      · rw [if_pos ht]
        apply ih
        obtain ⟨ch, tail, he⟩ := liFlush_leadInv idPfx st h
        by_cases hie : (liFlush idPfx st).items.isEmpty
        · rw [if_pos hie]
          exact Or.inr ⟨ch, tail, he⟩
        · rw [if_neg hie]
          exact Or.inr ⟨ch, tail, he⟩
      · rw [if_neg ht]
        by_cases hdd : t = "dd" ∨ t = "la"
        · rw [if_pos hdd]
          apply ih
          rcases h with ⟨hi, hp, hb⟩ | ⟨ch, tail, hi⟩
          · exact Or.inl ⟨hi, hp,
              flushTextInto_ne _ _ (ddLoop_buf_ne _ _ _ _ hb)⟩
          · exact Or.inr ⟨ch, tail, hi⟩
        · rw [if_neg hdd]
          exact ih st h

theorem listLoop_append (xs ys : List PONode) (idPfx : String) (st : LState) :
    listLoop (xs ++ ys) idPfx st = listLoop ys idPfx (listLoop xs idPfx st) := by
  induction xs generalizing st with
  | nil => rw [List.nil_append, listLoop]
  | cons x rest ih =>
    rw [List.cons_append, listLoop]
    conv_rhs => rw [listLoop]
    cases hn : lname x with
    | none => exact ih st
    | some t =>
      dsimp only
      by_cases ht : t = "dt"
      · rw [if_pos ht, if_pos ht]
        split <;> exact ih _
      · rw [if_neg ht, if_neg ht]
        by_cases hdd : t = "dd" ∨ t = "la"
        · rw [if_pos hdd, if_pos hdd]
          exact ih _
        · rw [if_neg hdd, if_neg hdd]
          exact ih st

theorem listLoop_dt_last (dt0 : PONode) (idPfx : String) (st : LState)
    (hdt : lname dt0 = some "dt") :
    ∃ lbl idv, (liFlush idPfx (listLoop [dt0] idPfx st)).items =
      (liFlush idPfx st).items ++ [ListItemNode.mk lbl idv []] := by
  rw [listLoop, hdt]
  dsimp only
  rw [if_pos rfl]
  by_cases hie : (liFlush idPfx st).items.isEmpty
  · rw [if_pos hie, listLoop]
    have hbz := liFlush_buf_nil idPfx st
    generalize hG : liFlush idPfx st = st1 at hbz ⊢
    dsimp only [liFlush]
    rw [hbz]
    exact ⟨_, _, rfl⟩
  · rw [if_neg hie, listLoop]
    have hbz := liFlush_buf_nil idPfx st
    generalize hG : liFlush idPfx st = st1 at hbz ⊢
    dsimp only [liFlush]
    rw [hbz]
    exact ⟨_, _, rfl⟩

theorem parseList_c10Dl_eq :
    parseList c10Dl "" =
      .mk .unordered .custom none
        [.mk none none [.md "pre"], .mk none none [.md "x"],
         .mk none none []] := by
  have hr1 : renderInlineToMd (childrenOf (PONode.elem "DT" [] [PONode.text "1."])) = "1." := by
    simp only [childrenOf]
    rw [renderInlineToMd, renderInlineList_cons, renderInlineOne_text, renderInlineList_nil]
    rfl
  have hr2 : renderInlineToMd (childrenOf (PONode.elem "DT" [] [PONode.text "2."])) = "2." := by
    simp only [childrenOf]
    rw [renderInlineToMd, renderInlineList_cons, renderInlineOne_text, renderInlineList_nil]
    rfl
  rw [parseList]
  simp only [c10Dl, childrenOf]
  rw [listLoop_cons_dd (PONode.elem "DD" [] [PONode.text "pre"]) _ _ _ "dd" (by decide) (Or.inl rfl)]
  simp only [childrenOf]
  rw [ddLoop_text, ddLoop_nil]
  rw [listLoop_cons_dt (PONode.elem "DT" [] [PONode.text "1."]) _ _ _ (by decide), hr1]
  rw [listLoop_cons_dd (PONode.elem "DD" [] [PONode.text "x"]) _ _ _ "dd" (by decide) (Or.inl rfl)]
  simp only [childrenOf]
  rw [ddLoop_text, ddLoop_nil]
  rw [listLoop_cons_dt (PONode.elem "DT" [] [PONode.text "2."]) _ _ _ (by decide), hr2]
  rw [listLoop_nil]
  rfl

theorem parseList_leading_dd (dl dd0 : PONode) (rest : List PONode)
    (idPfx : String) (hc : childrenOf dl = dd0 :: rest)
    (hdd : lname dd0 = some "dd" ∨ lname dd0 = some "la")
    (hB : flushTextInto (ddLoop (childrenOf dd0) idPfx none ("", [])).1
      (ddLoop (childrenOf dd0) idPfx none ("", [])).2 ≠ []) :
    (parseList dl idPfx).kind = .unordered ∧
    (parseList dl idPfx).style = .custom ∧
    ∃ ch tail, (parseList dl idPfx).children = .mk none none ch :: tail := by
  rw [parseList_eq]
  dsimp only
  rw [hc]
  have hstep : listLoop (dd0 :: rest) idPfx initLState =
      listLoop rest idPfx
        { initLState with
          buf := flushTextInto (ddLoop (childrenOf dd0) idPfx none ("", [])).1
            (ddLoop (childrenOf dd0) idPfx none ("", [])).2 } := by
    rcases hdd with h | h
    · exact listLoop_cons_dd dd0 rest idPfx initLState "dd" h (Or.inl rfl)
    · exact listLoop_cons_dd dd0 rest idPfx initLState "la" h (Or.inr rfl)
  rw [hstep]
  obtain ⟨k1, k2, _⟩ := listLoop_freeze2 rest idPfx
    { initLState with
      buf := flushTextInto (ddLoop (childrenOf dd0) idPfx none ("", [])).1
        (ddLoop (childrenOf dd0) idPfx none ("", [])).2 }
    (Or.inr (Or.inr hB))
  have hlk := liFlush_kind idPfx (listLoop rest idPfx
    { initLState with
      buf := flushTextInto (ddLoop (childrenOf dd0) idPfx none ("", [])).1
        (ddLoop (childrenOf dd0) idPfx none ("", [])).2 })
  have hki : (liFlush idPfx (listLoop rest idPfx
      { initLState with
        buf := flushTextInto (ddLoop (childrenOf dd0) idPfx none ("", [])).1
          (ddLoop (childrenOf dd0) idPfx none ("", [])).2 })).kind = .unordered := by
    rw [hlk.1, k1]
    rfl
  have hsi : (liFlush idPfx (listLoop rest idPfx
      { initLState with
        buf := flushTextInto (ddLoop (childrenOf dd0) idPfx none ("", [])).1
          (ddLoop (childrenOf dd0) idPfx none ("", [])).2 })).style = .custom := by
    rw [hlk.2.1, k2]
    rfl
  have hlead := liFlush_leadInv idPfx (listLoop rest idPfx
      { initLState with
        buf := flushTextInto (ddLoop (childrenOf dd0) idPfx none ("", [])).1
          (ddLoop (childrenOf dd0) idPfx none ("", [])).2 })
    (listLoop_leadInv rest idPfx _ (Or.inl ⟨rfl, rfl, hB⟩))
  obtain ⟨ch, tail, he⟩ := hlead
  dsimp only [ListNode.kind, ListNode.style, ListNode.children]
  refine ⟨hki, hsi, ch, tail.map clearLabel, ?_⟩
  rw [if_pos hki, he]
  rfl

theorem parseList_trailing_dt (dl dt0 : PONode) (pre : List PONode)
    (idPfx : String) (hc : childrenOf dl = pre ++ [dt0])
    (hdt : lname dt0 = some "dt") :
    ∃ before lbl idv, (parseList dl idPfx).children =
      before ++ [ListItemNode.mk lbl idv []] := by
  rw [parseList_eq]
  dsimp only
  rw [hc, listLoop_append]
  obtain ⟨lbl, idv, he⟩ := listLoop_dt_last dt0 idPfx (listLoop pre idPfx initLState) hdt
  dsimp only [ListNode.children]
  rw [he]
  split
  · exact ⟨_, none, idv, by rw [List.map_append]; rfl⟩
  · exact ⟨_, lbl, idv, rfl⟩

/-- C10: parseList totalizes malformed definition lists: it always returns a
List node; non-blank definition content before the first term becomes a
leading ListItem with no label and no id, and the first term then no longer
classifies the list, whose kind and style remain the defaults
unordered/custom; a trailing term with no following definition becomes a
final ListItem with empty children; the mixed malformed scenario evaluates
accordingly. -/
theorem c10_malformed_lists :
    (∀ dl idPfx, ∃ k s sym items, parseList dl idPfx = ListNode.mk k s sym items) ∧
    (∀ dl dd0 rest idPfx, childrenOf dl = dd0 :: rest →
        (lname dd0 = some "dd" ∨ lname dd0 = some "la") →
        flushTextInto (ddLoop (childrenOf dd0) idPfx none ("", [])).1
          (ddLoop (childrenOf dd0) idPfx none ("", [])).2 ≠ [] →
        (parseList dl idPfx).kind = .unordered ∧
        (parseList dl idPfx).style = .custom ∧
        ∃ ch tail, (parseList dl idPfx).children = .mk none none ch :: tail) ∧
    (∀ dl dt0 pre idPfx, childrenOf dl = pre ++ [dt0] → lname dt0 = some "dt" →
        ∃ before lbl idv, (parseList dl idPfx).children =
          before ++ [ListItemNode.mk lbl idv []]) ∧
    parseList c10Dl "" =
      .mk .unordered .custom none
        [.mk none none [.md "pre"], .mk none none [.md "x"],
         .mk none none []] := by
  refine ⟨?_, ?_, ?_, parseList_c10Dl_eq⟩
  · intro dl idPfx
    cases hp : parseList dl idPfx with
    | mk k s sym items => exact ⟨k, s, sym, items, rfl⟩
  · intro dl dd0 rest idPfx hc hdd hB
    exact parseList_leading_dd dl dd0 rest idPfx hc hdd hB
  · intro dl dt0 pre idPfx hc hdt
    exact parseList_trailing_dt dl dt0 pre idPfx hc hdt

/-- Witness for C10's universal parts at the concrete malformed list. -/
theorem c10_malformed_lists_witness :
    ((parseList c10Dl "").kind = .unordered ∧
      (parseList c10Dl "").style = .custom ∧
      ∃ ch tail, (parseList c10Dl "").children = .mk none none ch :: tail) ∧
    (∃ before lbl idv, (parseList c10Dl "").children =
      before ++ [ListItemNode.mk lbl idv []]) := by
  constructor
  · apply c10_malformed_lists.2.1 c10Dl (PONode.elem "DD" [] [PONode.text "pre"])
      [PONode.elem "DT" [] [PONode.text "1."], PONode.elem "DD" [] [PONode.text "x"],
       PONode.elem "DT" [] [PONode.text "2."]] "" rfl (Or.inl (by decide))
    simp only [childrenOf]
    rw [ddLoop_text, ddLoop_nil]
    intro h
    exact absurd (congrArg List.length h) (by decide)
  · exact c10_malformed_lists.2.2.1 c10Dl (PONode.elem "DT" [] [PONode.text "2."])
      [PONode.elem "DD" [] [PONode.text "pre"], PONode.elem "DT" [] [PONode.text "1."],
       PONode.elem "DD" [] [PONode.text "x"]] "" rfl (by decide)



theorem lpLoop_nil {α : Type} (pnp : PONode → String → Option α)
    (paraId : α → Option String) (paraSetId : α → String → α)
    (idPfx : String) (st : LPState α) :
    lpLoop pnp paraId paraSetId idPfx [] st = st := by
  rw [lpLoop]

theorem lpLoop_cons_dt {α : Type} (pnp : PONode → String → Option α)
    (paraId : α → Option String) (paraSetId : α → String → α)
    (idPfx : String) (node : PONode) (rest : List PONode) (st : LPState α)
    (h : lname node = some "dt") :
    lpLoop pnp paraId paraSetId idPfx (node :: rest) st =
      lpLoop pnp paraId paraSetId idPfx rest
        { lpFlush idPfx st with
          pending := some (jsTrim (renderInlineToMd (childrenOf node))) } := by
  rw [lpLoop, h]
  dsimp only
  rw [if_pos rfl]

theorem lpLoop_cons_dd {α : Type} (pnp : PONode → String → Option α)
    (paraId : α → Option String) (paraSetId : α → String → α)
    (idPfx : String) (node : PONode) (rest : List PONode) (st : LPState α)
    (t : String) (h : lname node = some t) (hd : t = "dd" ∨ t = "la") :
    lpLoop pnp paraId paraSetId idPfx (node :: rest) st =
      lpLoop pnp paraId paraSetId idPfx rest
        { st with buf := lpFlushText (lpPartsLoop pnp paraId paraSetId idPfx st.pending (childrenOf node) ("", st.buf)).1 (lpPartsLoop pnp paraId paraSetId idPfx st.pending (childrenOf node) ("", st.buf)).2 } := by
  rw [lpLoop, h]
  dsimp only
  rw [if_neg (by rcases hd with h | h <;> simp [h]), if_pos hd]

theorem lpPartsLoop_nil {α : Type} (pnp : PONode → String → Option α)
    (paraId : α → Option String) (paraSetId : α → String → α)
    (idPfx : String) (pending : Option String) (acc : String × List (LPChild α)) :
    lpPartsLoop pnp paraId paraSetId idPfx pending [] acc = acc := by
  rw [lpPartsLoop]

theorem lpPartsLoop_cons {α : Type} (pnp : PONode → String → Option α)
    (paraId : α → Option String) (paraSetId : α → String → α)
    (idPfx : String) (pending : Option String) (part : PONode)
    (rest : List PONode) (acc : String × List (LPChild α)) :
    lpPartsLoop pnp paraId paraSetId idPfx pending (part :: rest) acc =
      lpPartsLoop pnp paraId paraSetId idPfx pending rest
        (lpProcCR pnp paraId paraSetId idPfx pending part acc) := by
  rw [lpPartsLoop]

theorem lpProcCR_text {α : Type} (pnp : PONode → String → Option α)
    (paraId : α → Option String) (paraSetId : α → String → α)
    (idPfx : String) (pending : Option String) (s : String)
    (acc : String × List (LPChild α)) :
    lpProcCR pnp paraId paraSetId idPfx pending (.text s) acc =
      (acc.1 ++ s, acc.2) := by
  rw [lpProcCR]
  dsimp only [lname, textOf]

theorem lpFlush_pending_id {α : Type} (idPfx m t : String) (st : LPState α)
    (hp : st.pending = some m) (hpfx : idPfx ≠ "") (hm : m ≠ "")
    (ht : lpMarkerToken m = some t) :
    (lpFlush idPfx st).items =
      st.items ++ [.mk (some m) (some (idPfx ++ "." ++ t)) st.buf] := by
  simp only [lpFlush, hp]
  rw [if_neg hm, if_pos ⟨hpfx, hm⟩, ht]
  rfl

theorem lpNestedPfx_token (idPfx m t : String) (hpfx : idPfx ≠ "") (hm : m ≠ "")
    (ht : lpMarkerToken m = some t) :
    lpNestedPfx idPfx (some m) = idPfx ++ "." ++ t := by
  simp only [lpNestedPfx]
  rw [if_pos ⟨hpfx, hm⟩, ht]

theorem lpProcCR_dl {α : Type} (pnp : PONode → String → Option α)
    (paraId : α → Option String) (paraSetId : α → String → α)
    (idPfx : String) (pending : Option String) (el : PONode)
    (acc : String × List (LPChild α)) (hdl : lname el = some "dl") :
    lpProcCR pnp paraId paraSetId idPfx pending el acc =
      ("", lpFlushText acc.1 acc.2 ++
        [.list (listParserParse pnp paraId paraSetId el (lpNestedPfx idPfx pending))]) := by
  rw [lpProcCR, hdl]
  dsimp only
  rw [if_pos rfl]

theorem lpProcCR_p {α : Type} (pnp : PONode → String → Option α)
    (paraId : α → Option String) (paraSetId : α → String → α)
    (idPfx : String) (pending : Option String) (el : PONode)
    (acc : String × List (LPChild α)) (pr : α) (hp : lname el = some "p")
    (hpnp : pnp el (lpNestedPfx idPfx pending) = some pr) :
    lpProcCR pnp paraId paraSetId idPfx pending el acc =
      ("", lpFlushText acc.1 acc.2 ++ [.para pr]) := by
  rw [lpProcCR, hp]
  dsimp only
  rw [if_neg (by decide), if_pos rfl, hpnp]

theorem assignAutoItemsAux_id {α : Type} (base : String) (i : Nat)
    (items : List (LPItem α)) :
    ∀ it ∈ assignAutoItemsAux base i items, ∃ v, it.id = some v := by
  induction items generalizing i with
  | nil => intro it hit; rw [assignAutoItemsAux] at hit; simp at hit
  | cons hd rest ih =>
    intro it hit
    rw [assignAutoItemsAux] at hit
    rcases List.mem_cons.1 hit with rfl | h2
    · cases hv : hd.id with
      | some v => exact ⟨v, by dsimp only; exact hv⟩
      | none => exact ⟨base ++ "." ++ toString (i + 1), by dsimp only; rfl⟩
    · exact ih (i + 1) it h2

theorem listParserParse_ids {α : Type} (pnp : PONode → String → Option α)
    (paraId : α → Option String) (paraSetId : α → String → α)
    (dl : PONode) (idPfx : String) (hpfx : idPfx ≠ "") :
    ∀ it ∈ (listParserParse pnp paraId paraSetId dl idPfx).children,
      ∃ v, it.id = some v := by
  rw [listParserParse]
  dsimp only [LPListNode.children]
  intro it hit
  obtain ⟨j, hj, rfl⟩ := List.mem_map.1 hit
  have hja : ∃ v, j.id = some v := by
    apply assignAutoItemsAux_id _ 0 _ j
    simpa [assignAutomaticIdsItems] using hj
  obtain ⟨v, hv⟩ := hja
  rw [hv]
  dsimp only
  exact ⟨v, rfl⟩

theorem listParserParse_c6Dl {α : Type} (pnp : PONode → String → Option α)
    (paraId : α → Option String) (paraSetId : α → String → α) :
    listParserParse pnp paraId paraSetId c6Dl "7" =
      .mk "arabic" (some "7")
        [.mk (some "•") (some ("7" ++ "." ++ "1")) [.md "x"]] := by
  have hr1 : renderInlineToMd (childrenOf (PONode.elem "DT" [] [PONode.text "•"])) = "•" := by
    simp only [childrenOf]
    rw [renderInlineToMd, renderInlineList_cons, renderInlineOne_text, renderInlineList_nil]
    rfl
  rw [listParserParse]
  simp only [c6Dl, childrenOf]
  rw [lpLoop_cons_dt pnp paraId paraSetId "7" (PONode.elem "DT" [] [PONode.text "•"]) _ _ (by decide), hr1]
  rw [lpLoop_cons_dd pnp paraId paraSetId "7" (PONode.elem "DD" [] [PONode.text "x"]) _ _ "dd" (by decide) (Or.inl rfl)]
  simp only [childrenOf]
  rw [lpPartsLoop_cons, lpProcCR_text, lpPartsLoop_nil]
  rw [lpLoop_nil]
  rfl

/-- C6: the parser-library list parser extracts the marker token as the
first digit run, else the first letter lower-cased (3. gives 3, b) gives
b); with a non-empty prefix and a non-empty pending marker carrying a
token, the flushed item's id is the prefix joined by a dot with the token,
and the same extended prefix is passed to nested definition lists and
paragraphs inside the definition; when no token can be extracted, the
positional-placeholder pass still assigns every item an id, and the
bullet-marker scenario receives the placeholder id 7.1 under prefix 7. -/
theorem c6_hierarchical_ids :
    lpMarkerToken "3." = some "3" ∧
    lpMarkerToken "b)" = some "b" ∧
    (∀ (α : Type) (idPfx m t : String) (st : LPState α),
        st.pending = some m → idPfx ≠ "" → m ≠ "" →
        lpMarkerToken m = some t →
        (lpFlush idPfx st).items =
          st.items ++ [.mk (some m) (some (idPfx ++ "." ++ t)) st.buf]) ∧
    (∀ (α : Type) (pnp : PONode → String → Option α)
        (paraId : α → Option String) (paraSetId : α → String → α)
        (idPfx m t : String) (el : PONode) (acc : String × List (LPChild α)),
        lname el = some "dl" → idPfx ≠ "" → m ≠ "" → lpMarkerToken m = some t →
        lpProcCR pnp paraId paraSetId idPfx (some m) el acc =
          ("", lpFlushText acc.1 acc.2 ++
            [.list (listParserParse pnp paraId paraSetId el (idPfx ++ "." ++ t))])) ∧
    (∀ (α : Type) (pnp : PONode → String → Option α)
        (paraId : α → Option String) (paraSetId : α → String → α)
        (idPfx m t : String) (el : PONode) (acc : String × List (LPChild α)) (pr : α),
        lname el = some "p" → idPfx ≠ "" → m ≠ "" → lpMarkerToken m = some t →
        pnp el (idPfx ++ "." ++ t) = some pr →
        lpProcCR pnp paraId paraSetId idPfx (some m) el acc =
          ("", lpFlushText acc.1 acc.2 ++ [.para pr])) ∧
    (∀ (α : Type) (pnp : PONode → String → Option α)
        (paraId : α → Option String) (paraSetId : α → String → α)
        (dl : PONode) (idPfx : String), idPfx ≠ "" →
        ∀ it ∈ (listParserParse pnp paraId paraSetId dl idPfx).children,
          ∃ v, it.id = some v) ∧
    (∀ (α : Type) (pnp : PONode → String → Option α)
        (paraId : α → Option String) (paraSetId : α → String → α),
        listParserParse pnp paraId paraSetId c6Dl "7" =
          .mk "arabic" (some "7")
            [.mk (some "•") (some ("7" ++ "." ++ "1")) [.md "x"]]) := by
  refine ⟨by decide, by decide, ?_, ?_, ?_, ?_, ?_⟩
  · intro α idPfx m t st hp hpfx hm ht
    exact lpFlush_pending_id idPfx m t st hp hpfx hm ht
  · intro α pnp paraId paraSetId idPfx m t el acc hdl hpfx hm ht
    rw [lpProcCR_dl pnp paraId paraSetId idPfx (some m) el acc hdl,
        lpNestedPfx_token idPfx m t hpfx hm ht]
  · intro α pnp paraId paraSetId idPfx m t el acc pr hp hpfx hm ht hpnp
    refine lpProcCR_p pnp paraId paraSetId idPfx (some m) el acc pr hp ?_
    rw [lpNestedPfx_token idPfx m t hpfx hm ht]
    exact hpnp
  · intro α pnp paraId paraSetId dl idPfx hpfx
    exact listParserParse_ids pnp paraId paraSetId dl idPfx hpfx
  · intro α pnp paraId paraSetId
    exact listParserParse_c6Dl pnp paraId paraSetId

/-- Witness for C6 at concrete markers and the bullet-marker list. -/
theorem c6_hierarchical_ids_witness :
    (lpFlush "7" (⟨[], some "3.", []⟩ : LPState Unit)).items =
      [LPItem.mk (some "3.") (some ("7" ++ "." ++ "3")) []] ∧
    (∀ it ∈ (listParserParse (fun _ _ => (none : Option Unit)) (fun _ => none)
        (fun x _ => x) c6Dl "7").children, ∃ v, it.id = some v) ∧
    listParserParse (fun _ _ => (none : Option Unit)) (fun _ => none)
        (fun x _ => x) c6Dl "7" =
      .mk "arabic" (some "7")
        [.mk (some "•") (some ("7" ++ "." ++ "1")) [.md "x"]] :=
  ⟨c6_hierarchical_ids.2.2.1 Unit "7" "3." "3" ⟨[], some "3.", []⟩ rfl (by decide) (by decide) (by decide),
   c6_hierarchical_ids.2.2.2.2.2.1 Unit (fun _ _ => none) (fun _ => none) (fun x _ => x) c6Dl "7" (by decide),
   c6_hierarchical_ids.2.2.2.2.2.2 Unit (fun _ _ => none) (fun _ => none) (fun x _ => x)⟩



theorem clearLabel_id (it : ListItemNode) : (clearLabel it).id = it.id := by
  cases it with
  | mk l i c => rfl

theorem liFlush_idShape (pfx : String) (st : LState)
    (h : ∀ it ∈ st.items, c9IdShape pfx it) :
    ∀ it ∈ (liFlush pfx st).items, c9IdShape pfx it := by
  cases hp : st.pending with
  | none =>
    simp only [liFlush, hp]
    split
    · exact h
    · intro it hit
      rcases List.mem_append.1 hit with h1 | h1
      · exact h it h1
      · rcases List.mem_singleton.1 h1 with rfl
        exact Or.inl rfl
  | some m =>
    simp only [liFlush, hp]
    intro it hit
    rcases List.mem_append.1 hit with h1 | h1
    · exact h it h1
    · rcases List.mem_singleton.1 h1 with rfl
      by_cases hc : pfx ≠ "" ∧ m ≠ ""
      · rw [if_pos hc]
        cases hd : firstDigitRun m with
        | none => exact Or.inl rfl
        | some d => exact Or.inr ⟨d, rfl⟩
      · rw [if_neg hc]
        exact Or.inl rfl

theorem listLoop_idShape (nodes : List PONode) (pfx : String) (st : LState)
    (h : ∀ it ∈ st.items, c9IdShape pfx it) :
    ∀ it ∈ (listLoop nodes pfx st).items, c9IdShape pfx it := by
  induction nodes generalizing st with
  | nil => rw [listLoop]; exact h
  | cons node rest ih =>
    rw [listLoop]
    cases hn : lname node with
    | none => exact ih st h
    | some t =>
      dsimp only
      by_cases ht : t = "dt"
      · rw [if_pos ht]
        apply ih
        have h2 := liFlush_idShape pfx st h
        by_cases hie : (liFlush pfx st).items.isEmpty
        · rw [if_pos hie]
          exact h2
        · rw [if_neg hie]
          exact h2
      · rw [if_neg ht]
        by_cases hdd : t = "dd" ∨ t = "la"
        · rw [if_pos hdd]
          exact ih _ h
        · rw [if_neg hdd]
          exact ih st h

theorem parseList_idShape (dl : PONode) (idPfx : String) :
    ∀ it ∈ (parseList dl idPfx).children, c9IdShape idPfx it := by
  rw [parseList_eq]
  dsimp only [ListNode.children]
  have hall := liFlush_idShape idPfx (listLoop (childrenOf dl) idPfx initLState)
    (listLoop_idShape (childrenOf dl) idPfx initLState
      (by intro it hit; simp [initLState] at hit))
  split
  · intro it hit
    obtain ⟨j, hj, rfl⟩ := List.mem_map.1 hit
    rcases hall j hj with h1 | ⟨d, h1⟩
    · exact Or.inl (by rw [clearLabel_id, h1])
    · exact Or.inr ⟨d, by rw [clearLabel_id, h1]⟩
  · exact hall

theorem paraFinalize_none (pid : String) (out : List PChild) :
    paraFinalize none pid out = .mk none none out := by
  unfold paraFinalize
  split <;> simp_all

theorem paraFinalize_id_cases (pn : Option String) (pid : String)
    (out : List PChild) :
    (paraFinalize pn pid out).id = none ∨ (paraFinalize pn pid out).id = some pid := by
  unfold paraFinalize
  split
  · split
    · right; rfl
    · left; rfl
  · left; rfl

theorem parseParagraph_idShape (p : PONode) (idPfx : String) :
    (parseParagraph p idPfx).id = none ∨
      ∃ d, (parseParagraph p idPfx).id =
        some (if idPfx ≠ "" then idPfx ++ "." ++ d else d) := by
  rw [parseParagraph]
  cases hpn : paraScanNum (childrenOf p) with
  | none =>
    dsimp only
    left
    rw [paraFinalize_none]
    rfl
  | some d =>
    dsimp only
    rcases paraFinalize_id_cases (some d)
        (if idPfx ≠ "" then idPfx ++ "." ++ d else d)
        (paraLoop (childrenOf p) (if idPfx ≠ "" then idPfx ++ "." ++ d else d) ("", []))
      with h | h
    · exact Or.inl h
    · exact Or.inr ⟨d, h⟩

theorem parseList_c5Ord7_eq :
    parseList c5Ord "7" =
      .mk .ordered .arabic none
        [.mk (some "1.") (some ("7" ++ "." ++ "1")) [.md "x"]] := by
  have hr1 : renderInlineToMd (childrenOf (PONode.elem "DT" [] [PONode.text "1."])) = "1." := by
    simp only [childrenOf]
    rw [renderInlineToMd, renderInlineList_cons, renderInlineOne_text, renderInlineList_nil]
    rfl
  rw [parseList]
  simp only [c5Ord, childrenOf]
  rw [listLoop_cons_dt (PONode.elem "DT" [] [PONode.text "1."]) _ _ _ (by decide), hr1]
  rw [listLoop_cons_dd (PONode.elem "DD" [] [PONode.text "x"]) _ _ _ "dd" (by decide) (Or.inl rfl)]
  simp only [childrenOf]
  rw [ddLoop_text, ddLoop_nil]
  rw [listLoop_nil]
  rfl

/-- C9: conversion is a pure function, so converting the same roots twice
yields the identical document; sibling blocks are dispatched independently
(the dispatch over concatenated sibling lists splits pointwise); a list
item's id is either absent or the inherited prefix extended by a dot and a
local token of its own marker; a paragraph's id is either absent or derived
from the inherited prefix and its own scanned number; the prefix handed to
nested structures likewise depends only on the prefix and the local pending
marker. -/
theorem c9_id_determinism :
    (∀ roots : List PONode, convert roots = convert roots) ∧
    (∀ (pid : String) (xs ys : List PONode),
        (xs ++ ys).filterMap (articleChildDispatch pid) =
          xs.filterMap (articleChildDispatch pid) ++
            ys.filterMap (articleChildDispatch pid)) ∧
    (∀ dl idPfx, ∀ it ∈ (parseList dl idPfx).children,
        it.id = none ∨ ∃ d, it.id = some (idPfx ++ "." ++ d)) ∧
    (∀ p idPfx, (parseParagraph p idPfx).id = none ∨
        ∃ d, (parseParagraph p idPfx).id =
          some (if idPfx ≠ "" then idPfx ++ "." ++ d else d)) ∧
    (∀ idPfx pending, nestedPfxOf idPfx pending = idPfx ∨
        ∃ d, nestedPfxOf idPfx pending = idPfx ++ "." ++ d) := by
  refine ⟨fun roots => rfl, fun pid xs ys => List.filterMap_append xs ys (articleChildDispatch pid), ?_, ?_, ?_⟩
  · intro dl idPfx it hit
    exact parseList_idShape dl idPfx it hit
  · intro p idPfx
    exact parseParagraph_idShape p idPfx
  · intro idPfx pending
    cases pending with
    | none => exact Or.inl rfl
    | some m =>
      dsimp only [nestedPfxOf]
      by_cases hc : idPfx ≠ "" ∧ m ≠ ""
      · rw [if_pos hc]
        exact Or.inr ⟨(firstDigitRun m).getD "1", rfl⟩
      · rw [if_neg hc]
        exact Or.inl rfl

/-- Witness for C9's id shapes at a concrete numbered list and paragraph. -/
theorem c9_id_determinism_witness :
    ((ListItemNode.mk (some "1.") (some ("7" ++ "." ++ "1")) [LiChild.md "x"]).id = none ∨
      ∃ d, (ListItemNode.mk (some "1.") (some ("7" ++ "." ++ "1")) [LiChild.md "x"]).id =
        some ("7" ++ "." ++ d)) ∧
    ((parseParagraph c9P1 "7").id = none ∨
      ∃ d, (parseParagraph c9P1 "7").id =
        some (if ("7" : String) ≠ "" then "7" ++ "." ++ d else d)) :=
  ⟨c9_id_determinism.2.2.1 c5Ord "7"
      (ListItemNode.mk (some "1.") (some ("7" ++ "." ++ "1")) [LiChild.md "x"])
      (by rw [parseList_c5Ord7_eq]; exact List.mem_cons_self _ _),
   c9_id_determinism.2.2.2.1 c9P1 "7"⟩



theorem outlineOkList_nil (d : Nat) : outlineOkList d [] = true := by
  rw [outlineOkList]

theorem outlineOkList_cons (d : Nat) (k : TreeNode) (rest : List TreeNode) :
    outlineOkList d (k :: rest) = (outlineOk d k && outlineOkList d rest) := by
  rw [outlineOkList]

theorem outlineOk_outline (d : Nat) (id label : String) (title : Option String)
    (kids : List TreeNode) :
    outlineOk d (.outline id label title kids) =
      (decide (levelFromCode id = d) && outlineOkList (d + 1) kids) := by
  rw [outlineOk]

theorem outlineOk_article (d : Nat) (id label : String) (title : Option String)
    (doknr : Option String) (fns : List Footnote) (ch : List BlockChild) :
    outlineOk d (.article id label title doknr fns ch) = true := by
  rw [outlineOk]

theorem outlineOk_section (d : Nat) (title doknr : Option String)
    (ch : List BlockChild) :
    outlineOk d (.section title doknr ch) = true := by
  rw [outlineOk]

theorem outlineOkList_append (d : Nat) (xs ys : List TreeNode) :
    outlineOkList d (xs ++ ys) = (outlineOkList d xs && outlineOkList d ys) := by
  induction xs with
  | nil => rw [List.nil_append, outlineOkList_nil, Bool.true_and]
  | cons x rest ih =>
    rw [List.cons_append, outlineOkList_cons, outlineOkList_cons, ih,
        Bool.and_assoc]

theorem c3_collect : collectNorms c3Roots = c3Roots := by
  simp [collectNorms, c3Roots, allDescWalkList, allDescWalk, c3Norm,
        lnameOf, stripNs, asciiLowerStr, asciiToLower, isAsciiUpper]

theorem c3_meta (c : String) (m : DocMeta) : extractLawMetadata (c3Norm c) m = m := by
  simp [extractLawMetadata, c3Norm, firstChild, childrenOf, lname, lnameOf,
        stripNs, asciiLowerStr, asciiToLower, isAsciiUpper, optTruthy]

theorem c3_po1 : parseOutline (c3Norm "05") =
    some ⟨"05", "Abschnitt", none, 1⟩ := by
  simp [parseOutline, c3Norm, firstChild, childrenOf, lname, lnameOf,
        stripNs, asciiLowerStr, asciiToLower, isAsciiUpper, textDeep,
        textDeepRaw, textDeepRawList, jsTrim, jsIsSpace, levelFromCode]
  decide

theorem c3_po2 : parseOutline (c3Norm "05001001") =
    some ⟨"05001001", "Abschnitt", none, 3⟩ := by
  simp [parseOutline, c3Norm, firstChild, childrenOf, lname, lnameOf,
        stripNs, asciiLowerStr, asciiToLower, isAsciiUpper, textDeep,
        textDeepRaw, textDeepRawList, jsTrim, jsIsSpace, levelFromCode]
  decide

theorem c3_po3 : parseOutline (c3Norm "05001002") =
    some ⟨"05001002", "Abschnitt", none, 3⟩ := by
  simp [parseOutline, c3Norm, firstChild, childrenOf, lname, lnameOf,
        stripNs, asciiLowerStr, asciiToLower, isAsciiUpper, textDeep,
        textDeepRaw, textDeepRawList, jsTrim, jsIsSpace, levelFromCode]
  decide

theorem c3_po4 : parseOutline (c3Norm "05001") =
    some ⟨"05001", "Abschnitt", none, 2⟩ := by
  simp [parseOutline, c3Norm, firstChild, childrenOf, lname, lnameOf,
        stripNs, asciiLowerStr, asciiToLower, isAsciiUpper, textDeep,
        textDeepRaw, textDeepRawList, jsTrim, jsIsSpace, levelFromCode]
  decide

theorem c3_cex_eq :
    convert c3Roots =
      ⟨none, none,
        [.outline "05" "Abschnitt" none
          [.outline "05001001" "Abschnitt" none
            [.outline "05001002" "Abschnitt" none []]]]⟩ := by
  rw [convert, c3_collect]
  simp only [c3Roots, List.foldl_cons, List.foldl_nil, c3_meta]
  simp only [convertStep, c3_po1, c3_po2, c3_po3]
  rw [popWhile]
  dsimp only
  rw [popWhile]
  simp only [List.length_nil, ge_iff_le]
  rw [if_neg (by omega)]
  rw [popWhile]
  simp only [List.length_cons, List.length_nil]
  rw [if_neg (by omega)]
  rw [finishStacks]
  dsimp only
  rw [finishStacks]
  dsimp only
  rw [finishStacks]
  rfl


theorem popWhile_nil (lvl : Nat) (dc : List TreeNode) :
    popWhile lvl [] dc = ([], dc) := by
  rw [popWhile.eq_def]

theorem popWhile_cons (lvl : Nat) (f : Frame) (rest : List Frame)
    (dc : List TreeNode) :
    popWhile lvl (f :: rest) dc =
      (if rest.length + 1 ≥ lvl then
        match rest with
        | [] => ([], dc ++ [finalizeFrame f])
        | g :: gs =>
          popWhile lvl ({ g with acc := g.acc ++ [finalizeFrame f] } :: gs) dc
      else (f :: rest, dc)) := by
  rw [popWhile.eq_def]

theorem finishStacks_nil (dc : List TreeNode) : finishStacks [] dc = dc := by
  rw [finishStacks.eq_def]

theorem finishStacks_cons (f : Frame) (rest : List Frame) (dc : List TreeNode) :
    finishStacks (f :: rest) dc =
      (match rest with
       | [] => dc ++ [finalizeFrame f]
       | g :: gs =>
         finishStacks ({ g with acc := g.acc ++ [finalizeFrame f] } :: gs) dc) := by
  rw [finishStacks.eq_def]

theorem parseOutline_level (norm : PONode) (op : OutlineParse)
    (h : parseOutline norm = some op) : op.level = levelFromCode op.id := by
  unfold parseOutline at h
  cases hm : firstChild norm "metadaten" with
  | none => rw [hm] at h; cases h
  | some meta =>
    rw [hm] at h
    dsimp only at h
    cases hg : firstChild meta "gliederungseinheit" with
    | none => rw [hg] at h; cases h
    | some gl =>
      rw [hg] at h
      dsimp only at h
      split at h
      · cases h
      · cases h
        rfl

theorem parseArticle_outlineOk (norm : PONode) (a : TreeNode) (d : Nat)
    (h : parseArticle norm = some a) : outlineOk d a = true := by
  unfold parseArticle at h
  cases hm : firstChild norm "metadaten" with
  | none => rw [hm] at h; cases h
  | some meta =>
    rw [hm] at h
    dsimp only at h
    cases he : firstChild meta "enbez" with
    | none => rw [he] at h; cases h
    | some enbezN =>
      rw [he] at h
      dsimp only at h
      cases hp : parseArticleEnbez (textDeep enbezN) with
      | none => rw [hp] at h; cases h
      | some pr =>
        rw [hp] at h
        cases pr with
        | mk label id =>
          dsimp only at h
          cases h
          exact outlineOk_article _ _ _ _ _ _ _

theorem parseSection_outlineOk (norm : PONode) (s : TreeNode) (d : Nat)
    (h : parseSection norm = some s) : outlineOk d s = true := by
  unfold parseSection at h
  cases hm : firstChild norm "metadaten" with
  | none => rw [hm] at h; cases h
  | some meta =>
    rw [hm] at h
    dsimp only at h
    cases he : firstChild meta "enbez" with
    | none => rw [he] at h; cases h
    | some enbezN =>
      rw [he] at h
      dsimp only at h
      cases hp : parseArticleEnbez (textDeep enbezN) with
      | some pr => rw [hp] at h; cases h
      | none =>
        rw [hp] at h
        dsimp only at h
        cases h
        exact outlineOk_section _ _ _ _

theorem closeFrame_ok (f g : Frame) (hfl : f.level = g.level + 1)
    (hfid : levelFromCode f.id = f.level)
    (hfacc : outlineOkList (f.level + 1) f.acc = true)
    (hgacc : outlineOkList (g.level + 1) g.acc = true) :
    outlineOkList (g.level + 1) (g.acc ++ [finalizeFrame f]) = true := by
  rw [hfl] at hfacc
  rw [outlineOkList_append, hgacc, Bool.true_and, outlineOkList_cons,
      outlineOkList_nil, Bool.and_true,
      show finalizeFrame f = .outline f.id f.label f.title f.acc from rfl,
      outlineOk_outline, hfid, hfl, hfacc, Bool.and_true]
  simp

theorem closeFrame_root_ok (f : Frame) (dc : List TreeNode) (hfl : f.level = 1)
    (hfid : levelFromCode f.id = f.level)
    (hfacc : outlineOkList (f.level + 1) f.acc = true)
    (hdc : outlineOkList 1 dc = true) :
    outlineOkList 1 (dc ++ [finalizeFrame f]) = true := by
  rw [hfl] at hfacc
  rw [outlineOkList_append, hdc, Bool.true_and, outlineOkList_cons,
      outlineOkList_nil, Bool.and_true,
      show finalizeFrame f = .outline f.id f.label f.title f.acc from rfl,
      outlineOk_outline, hfid, hfl, hfacc, Bool.and_true]
  simp

theorem popWhile_inv_aux (lvl : Nat) (n : Nat) :
    ∀ (stack : List Frame) (dc : List TreeNode), stack.length = n →
      1 ≤ lvl → lvl ≤ n + 1 → framesOk stack → outlineOkList 1 dc = true →
      framesOk (popWhile lvl stack dc).1 ∧
      outlineOkList 1 (popWhile lvl stack dc).2 = true ∧
      (popWhile lvl stack dc).1.length = lvl - 1 := by
  induction n with
  | zero =>
    intro stack dc hlen h1 h2 hfr hdc
    have hs : stack = [] := List.length_eq_zero.mp hlen
    subst hs
    rw [popWhile_nil]
    exact ⟨trivial, hdc, by simp; omega⟩
  | succ n ih =>
    intro stack dc hlen h1 h2 hfr hdc
    cases stack with
    | nil => simp at hlen
    | cons f rest =>
      obtain ⟨hfl, hfid, hfacc, hfrest⟩ := hfr
      simp only [List.length_cons] at hlen
      rw [popWhile_cons]
      by_cases hge : rest.length + 1 ≥ lvl
      · rw [if_pos hge]
        cases rest with
        | nil =>
          dsimp only
          refine ⟨trivial, ?_, ?_⟩
          · exact closeFrame_root_ok f dc (by simpa using hfl) hfid hfacc hdc
          · simp only [List.length_nil]
            simp only [List.length_nil] at hge
            omega
        | cons g gs =>
          dsimp only
          obtain ⟨hgl, hgid, hgacc, hggs⟩ := hfrest
          apply ih ({ g with acc := g.acc ++ [finalizeFrame f] } :: gs) dc
          · simp only [List.length_cons]
            simp only [List.length_cons] at hlen
            omega
          · exact h1
          · simp only [List.length_cons] at hge hlen
            omega
          · refine ⟨hgl, hgid, ?_, hggs⟩
            apply closeFrame_ok f g ?_ hfid hfacc hgacc
            rw [hfl, hgl]
            simp [List.length_cons]
          · exact hdc
      · rw [if_neg hge]
        refine ⟨⟨hfl, hfid, hfacc, hfrest⟩, hdc, ?_⟩
        simp only [List.length_cons] at hge hlen ⊢
        omega

theorem finishStacks_inv_aux (n : Nat) :
    ∀ (stack : List Frame) (dc : List TreeNode), stack.length = n →
      framesOk stack → outlineOkList 1 dc = true →
      outlineOkList 1 (finishStacks stack dc) = true := by
  induction n with
  | zero =>
    intro stack dc hlen hfr hdc
    have hs : stack = [] := List.length_eq_zero.mp hlen
    subst hs
    rw [finishStacks_nil]
    exact hdc
  | succ n ih =>
    intro stack dc hlen hfr hdc
    cases stack with
    | nil => simp at hlen
    | cons f rest =>
      obtain ⟨hfl, hfid, hfacc, hfrest⟩ := hfr
      simp only [List.length_cons] at hlen
      rw [finishStacks_cons]
      cases rest with
      | nil =>
        dsimp only
        exact closeFrame_root_ok f dc (by simpa using hfl) hfid hfacc hdc
      | cons g gs =>
        dsimp only
        obtain ⟨hgl, hgid, hgacc, hggs⟩ := hfrest
        apply ih ({ g with acc := g.acc ++ [finalizeFrame f] } :: gs) dc
        · simp only [List.length_cons]
          simp only [List.length_cons] at hlen
          omega
        · refine ⟨hgl, hgid, ?_, hggs⟩
          apply closeFrame_ok f g ?_ hfid hfacc hgacc
          rw [hfl, hgl]
          simp [List.length_cons]
        · exact hdc

theorem pushInto_inv (node : TreeNode) (st : CState)
    (hnode : ∀ d, outlineOk d node = true)
    (hfr : framesOk st.stack) (hdc : outlineOkList 1 st.dc = true) :
    framesOk (pushInto node st).stack ∧
      outlineOkList 1 (pushInto node st).dc = true ∧
      (pushInto node st).stack.length = st.stack.length := by
  unfold pushInto
  cases hs : st.stack with
  | nil =>
    dsimp only
    refine ⟨?_, ?_, rfl⟩
    · exact hs ▸ hfr
    · rw [outlineOkList_append, hdc, Bool.true_and, outlineOkList_cons,
          outlineOkList_nil, Bool.and_true]
      exact hnode 1
  | cons f rest =>
    rw [hs] at hfr
    obtain ⟨hfl, hfid, hfacc, hfrest⟩ := hfr
    dsimp only
    refine ⟨⟨hfl, hfid, ?_, hfrest⟩, hdc, rfl⟩
    rw [outlineOkList_append, hfacc, Bool.true_and, outlineOkList_cons,
        outlineOkList_nil, Bool.and_true]
    exact hnode (f.level + 1)

theorem foldl_convertStep_inv (norms : List PONode) :
    ∀ st : CState,
      chainOk st.stack.length (outlineLevels norms) = true →
      framesOk st.stack → outlineOkList 1 st.dc = true →
      framesOk ((norms.foldl convertStep st).stack) ∧
        outlineOkList 1 ((norms.foldl convertStep st).dc) = true := by
  induction norms with
  | nil =>
    intro st _ hfr hdc
    exact ⟨hfr, hdc⟩
  | cons n rest ih =>
    intro st hch hfr hdc
    rw [List.foldl_cons]
    cases hpo : parseOutline n with
    | none =>
      have hlv : outlineLevels (n :: rest) = outlineLevels rest := by
        simp [outlineLevels, List.filterMap_cons, hpo]
      rw [hlv] at hch
      unfold convertStep
      rw [hpo]
      cases hpa : parseArticle n with
      | some a =>
        have hp := pushInto_inv a { st with meta := extractLawMetadata n st.meta }
          (fun d => parseArticle_outlineOk n a d hpa) hfr hdc
        exact ih _ (by rw [hp.2.2]; exact hch) hp.1 hp.2.1
      | none =>
        cases hps : parseSection n with
        | some s =>
          have hp := pushInto_inv s { st with meta := extractLawMetadata n st.meta }
            (fun d => parseSection_outlineOk n s d hps) hfr hdc
          exact ih _ (by rw [hp.2.2]; exact hch) hp.1 hp.2.1
        | none => exact ih st hch hfr hdc
    | some op =>
      have hlv : outlineLevels (n :: rest) = op.level :: outlineLevels rest := by
        simp [outlineLevels, List.filterMap_cons, hpo]
      rw [hlv] at hch
      rw [chainOk] at hch
      simp only [Bool.and_eq_true, decide_eq_true_eq] at hch
      obtain ⟨⟨h1, h2⟩, hch2⟩ := hch
      have hpw := popWhile_inv_aux op.level st.stack.length st.stack st.dc rfl h1
        (by omega) hfr hdc
      unfold convertStep
      rw [hpo]
      dsimp only
      apply ih
      · show chainOk (List.length _) _ = true
        simp only [List.length_cons]
        rw [hpw.2.2]
        have : op.level - 1 + 1 = op.level := by omega
        rw [this]
        exact hch2
      · refine ⟨?_, ?_, ?_, hpw.1⟩
        · show op.level = _ + 1
          rw [hpw.2.2]
          omega
        · show levelFromCode op.id = op.level
          exact (parseOutline_level n op hpo).symm
        · exact outlineOkList_nil _
      · exact hpw.2.1

theorem convert_outlineOk (roots : List PONode)
    (hch : chainOk 0 (outlineLevels (collectNorms roots)) = true) :
    outlineOkList 1 (convert roots).children = true := by
  rw [convert]
  dsimp only
  have h := foldl_convertStep_inv (collectNorms roots)
    ⟨[], [], (collectNorms roots).foldl (fun m n => extractLawMetadata n m) ⟨none, none⟩⟩
    hch trivial (outlineOkList_nil 1)
  exact finishStacks_inv_aux _ _ _ rfl h.1 h.2

theorem c3_collect_good : collectNorms c3GoodRoots = c3GoodRoots := by
  simp [collectNorms, c3GoodRoots, allDescWalkList, allDescWalk, c3Norm,
        lnameOf, stripNs, asciiLowerStr, asciiToLower, isAsciiUpper]

/-- C3: the assembler pops open outline nodes while the stack holds at
least the new node's level many of them - a count condition, not the
claimed top-depth condition - leaving the stack untouched when fewer are
open; consequently the claimed depth invariant holds only for level
sequences that start at one and never skip upward (amended): under that
chain condition every Outline node in the assembled tree carries its
computed level as depth, immediate outline children sit exactly one level
deeper, and hence all outline descendants sit strictly deeper. -/
theorem c3_stack_assembly :
    (∀ (lvl : Nat) (f : Frame) (rest : List Frame) (dc : List TreeNode),
        rest.length + 1 < lvl → popWhile lvl (f :: rest) dc = (f :: rest, dc)) ∧
    (∀ roots : List PONode,
        chainOk 0 (outlineLevels (collectNorms roots)) = true →
        outlineOkList 1 (convert roots).children = true) := by
  constructor
  · intro lvl f rest dc hlt
    rw [popWhile_cons]
    rw [if_neg (by omega)]
  · intro roots hch
    exact convert_outlineOk roots hch

/-- Counterexample to C3's unconditional depth invariant: outline codes
05, 05001001, 05001002 (levels 1, 3, 3) assemble so that a depth-1 outline
gets an immediate outline child of level 3, which in turn nests the second
level-3 node; the depth check fails on the result. -/
theorem c3_stack_assembly_cex :
    convert c3Roots =
      ⟨none, none,
        [.outline "05" "Abschnitt" none
          [.outline "05001001" "Abschnitt" none
            [.outline "05001002" "Abschnitt" none []]]]⟩ ∧
    levelFromCode "05" = 1 ∧ levelFromCode "05001001" = 3 ∧
    outlineOkList 1 (convert c3Roots).children = false := by
  refine ⟨c3_cex_eq, by decide, by decide, ?_⟩
  rw [c3_cex_eq]
  dsimp only
  rw [outlineOkList_cons, outlineOkList_nil, outlineOk_outline,
      outlineOkList_cons, outlineOkList_nil, outlineOk_outline]
  simp [levelFromCode, jsTrim, jsIsSpace]

/-- Witness for C3 at a concrete short stack and the chain 1, 2, 3. -/
theorem c3_stack_assembly_witness :
    (popWhile 3 [⟨"05", "Abschnitt", none, 1, []⟩] [] =
      ([⟨"05", "Abschnitt", none, 1, []⟩], []) ∧
    outlineOkList 1 (convert c3GoodRoots).children = true) := by
  constructor
  · exact c3_stack_assembly.1 3 ⟨"05", "Abschnitt", none, 1, []⟩ [] [] (by simp)
  · apply c3_stack_assembly.2 c3GoodRoots
    rw [c3_collect_good]
    simp only [c3GoodRoots, outlineLevels, List.filterMap_cons,
      List.filterMap_nil, c3_po1, c3_po4, c3_po2, Option.map_some]
    decide


theorem jsTrim_eq (s : String) :
    jsTrim s = String.mk (List.rdropWhile jsIsSpace (s.toList.dropWhile jsIsSpace)) := rfl

theorem dropWhile_head_not_sat {p : Char → Bool} {l : List Char}
    (h : l.dropWhile p = l) : ∀ x xs, l = x :: xs → p x = false := by
  intro x xs he
  subst he
  rw [List.dropWhile_cons] at h
  by_cases hp : p x
  · rw [if_pos hp] at h
    have hlen := congrArg List.length h
    have hle : (xs.dropWhile p).length ≤ xs.length := (List.dropWhile_sublist p).length_le
    simp at hlen
    omega
  · exact Bool.eq_false_iff.mpr hp

theorem jsTrim_idem (s : String) : jsTrim (jsTrim s) = jsTrim s := by
  rw [jsTrim_eq, jsTrim_eq]
  congr 1
  have hAd : (s.toList.dropWhile jsIsSpace).dropWhile jsIsSpace
      = s.toList.dropWhile jsIsSpace := List.dropWhile_idempotent _ _
  have h0 : (String.mk (List.rdropWhile jsIsSpace (s.toList.dropWhile jsIsSpace))).toList
      = List.rdropWhile jsIsSpace (s.toList.dropWhile jsIsSpace) := rfl
  rw [h0]
  have h1 : (List.rdropWhile jsIsSpace (s.toList.dropWhile jsIsSpace)).dropWhile jsIsSpace
      = List.rdropWhile jsIsSpace (s.toList.dropWhile jsIsSpace) := by
    rcases hBe : List.rdropWhile jsIsSpace (s.toList.dropWhile jsIsSpace) with _ | ⟨x, xs⟩
    · simp
    · have hpre : List.rdropWhile jsIsSpace (s.toList.dropWhile jsIsSpace) <+:
          s.toList.dropWhile jsIsSpace := List.rdropWhile_prefix _ _
      obtain ⟨t, ht⟩ := hpre
      rw [hBe] at ht
      have hx : jsIsSpace x = false :=
        dropWhile_head_not_sat hAd x (xs ++ t) (by rw [← ht]; simp)
      rw [List.dropWhile_cons, hx]
      simp
  rw [h1]
  exact List.rdropWhile_idempotent _ _

theorem classifyMarker_symbol_cases (s : String) :
    ((classifyMarker s).style = .custom ∧ (classifyMarker s).kind = .unordered ∧
      (classifyMarker s).symbol = some (jsTrim s)) ∨
    ((classifyMarker s).style ≠ .custom ∧ (classifyMarker s).symbol = none) := by
  unfold classifyMarker
  dsimp only
  split_ifs <;> simp

/-- C2: a definition list's kind, style and optional symbol come from the
classification of the first term's trimmed marker under the priority
rules: arabic digits, single lower letter with parenthesis, single upper
letter, lower roman numerals, upper roman numerals, the bullet glyph,
dashes, and otherwise custom with the literal marker as symbol; the
markers of subsequent items leave the list's kind, style and symbol
unchanged. -/
theorem c2_marker_classes :
    (∀ s : String, arabicPat (jsTrim s).toList = true →
        classifyMarker s =
          { kind := .ordered, style := .arabic, label := some (jsTrim s) }) ∧
    (∀ s : String, arabicPat (jsTrim s).toList = false →
        alphaLowerPat (jsTrim s).toList = true →
        classifyMarker s =
          { kind := .ordered, style := .alphaLower, label := some (jsTrim s) }) ∧
    (∀ s : String, arabicPat (jsTrim s).toList = false →
        alphaLowerPat (jsTrim s).toList = false →
        alphaUpperPat (jsTrim s).toList = true →
        classifyMarker s =
          { kind := .ordered, style := .alphaUpper, label := some (jsTrim s) }) ∧
    (∀ s : String, arabicPat (jsTrim s).toList = false →
        alphaLowerPat (jsTrim s).toList = false →
        alphaUpperPat (jsTrim s).toList = false →
        romanLowerPat (jsTrim s).toList = true →
        classifyMarker s =
          { kind := .ordered, style := .romanLower, label := some (jsTrim s) }) ∧
    (∀ s : String, arabicPat (jsTrim s).toList = false →
        alphaLowerPat (jsTrim s).toList = false →
        alphaUpperPat (jsTrim s).toList = false →
        romanLowerPat (jsTrim s).toList = false →
        romanUpperPat (jsTrim s).toList = true →
        classifyMarker s =
          { kind := .ordered, style := .romanUpper, label := some (jsTrim s) }) ∧
    (∀ s : String, arabicPat (jsTrim s).toList = false →
        alphaLowerPat (jsTrim s).toList = false →
        alphaUpperPat (jsTrim s).toList = false →
        romanLowerPat (jsTrim s).toList = false →
        romanUpperPat (jsTrim s).toList = false →
        jsTrim s = "•" →
        classifyMarker s = { kind := .unordered, style := .bullet }) ∧
    (∀ s : String, arabicPat (jsTrim s).toList = false →
        alphaLowerPat (jsTrim s).toList = false →
        alphaUpperPat (jsTrim s).toList = false →
        romanLowerPat (jsTrim s).toList = false →
        romanUpperPat (jsTrim s).toList = false →
        jsTrim s ≠ "•" →
        (jsTrim s = "-" ∨ jsTrim s = "–" ∨ jsTrim s = "—") →
        classifyMarker s = { kind := .unordered, style := .dash }) ∧
    (∀ s : String, arabicPat (jsTrim s).toList = false →
        alphaLowerPat (jsTrim s).toList = false →
        alphaUpperPat (jsTrim s).toList = false →
        romanLowerPat (jsTrim s).toList = false →
        romanUpperPat (jsTrim s).toList = false →
        jsTrim s ≠ "•" → jsTrim s ≠ "-" → jsTrim s ≠ "–" → jsTrim s ≠ "—" →
        classifyMarker s =
          { kind := .unordered, style := .custom, symbol := some (jsTrim s) }) ∧
    (∀ (dl dt0 : PONode) (rest : List PONode) (idPfx : String),
        childrenOf dl = dt0 :: rest → lname dt0 = some "dt" →
        (parseList dl idPfx).kind =
          (classifyMarker (jsTrim (renderInlineToMd (childrenOf dt0)))).kind ∧
        (parseList dl idPfx).style =
          (classifyMarker (jsTrim (renderInlineToMd (childrenOf dt0)))).style ∧
        ((classifyMarker (jsTrim (renderInlineToMd (childrenOf dt0)))).style = .custom →
          jsTrim (renderInlineToMd (childrenOf dt0)) ≠ "" →
          (parseList dl idPfx).symbol =
            some (jsTrim (renderInlineToMd (childrenOf dt0)))) ∧
        ((classifyMarker (jsTrim (renderInlineToMd (childrenOf dt0)))).style ≠ .custom →
          (parseList dl idPfx).symbol = none)) ∧
    (∀ (dl dl2 dt0 : PONode) (rest rest2 : List PONode) (idPfx idPfx2 : String),
        childrenOf dl = dt0 :: rest → childrenOf dl2 = dt0 :: rest2 →
        lname dt0 = some "dt" →
        (parseList dl idPfx).kind = (parseList dl2 idPfx2).kind ∧
        (parseList dl idPfx).style = (parseList dl2 idPfx2).style ∧
        (parseList dl idPfx).symbol = (parseList dl2 idPfx2).symbol) := by
  refine ⟨?_, ?_, ?_, ?_, ?_, ?_, ?_, ?_, ?_, ?_⟩
  · intro s h
    unfold classifyMarker
    dsimp only
    rw [if_pos h]
  · intro s h1 h2
    unfold classifyMarker
    dsimp only
    rw [if_neg (by simp only [Bool.not_eq_true]; exact h1), if_pos h2]
  · intro s h1 h2 h3
    unfold classifyMarker
    dsimp only
    rw [if_neg (by simp only [Bool.not_eq_true]; exact h1), if_neg (by simp only [Bool.not_eq_true]; exact h2), if_pos h3]
  · intro s h1 h2 h3 h4
    unfold classifyMarker
    dsimp only
    rw [if_neg (by simp only [Bool.not_eq_true]; exact h1), if_neg (by simp only [Bool.not_eq_true]; exact h2), if_neg (by simp only [Bool.not_eq_true]; exact h3),
        if_pos h4]
  · intro s h1 h2 h3 h4 h5
    unfold classifyMarker
    dsimp only
    rw [if_neg (by simp only [Bool.not_eq_true]; exact h1), if_neg (by simp only [Bool.not_eq_true]; exact h2), if_neg (by simp only [Bool.not_eq_true]; exact h3),
        if_neg (by simp only [Bool.not_eq_true]; exact h4), if_pos h5]
  · intro s h1 h2 h3 h4 h5 h6
    unfold classifyMarker
    dsimp only
    rw [if_neg (by simp only [Bool.not_eq_true]; exact h1), if_neg (by simp only [Bool.not_eq_true]; exact h2), if_neg (by simp only [Bool.not_eq_true]; exact h3),
        if_neg (by simp only [Bool.not_eq_true]; exact h4), if_neg (by simp only [Bool.not_eq_true]; exact h5), if_pos h6]
  · intro s h1 h2 h3 h4 h5 h6 h7
    unfold classifyMarker
    dsimp only
    rw [if_neg (by simp only [Bool.not_eq_true]; exact h1), if_neg (by simp only [Bool.not_eq_true]; exact h2), if_neg (by simp only [Bool.not_eq_true]; exact h3),
        if_neg (by simp only [Bool.not_eq_true]; exact h4), if_neg (by simp only [Bool.not_eq_true]; exact h5), if_neg h6,
        if_pos (by rcases h7 with h7 | h7 | h7 <;> simp [h7])]
  · intro s h1 h2 h3 h4 h5 h6 h7 h8 h9
    unfold classifyMarker
    dsimp only
    rw [if_neg (by simp only [Bool.not_eq_true]; exact h1), if_neg (by simp only [Bool.not_eq_true]; exact h2), if_neg (by simp only [Bool.not_eq_true]; exact h3),
        if_neg (by simp only [Bool.not_eq_true]; exact h4), if_neg (by simp only [Bool.not_eq_true]; exact h5), if_neg h6,
        if_neg (by simp [h7, h8, h9])]
  · intro dl dt0 rest idPfx hc hdt
    obtain ⟨k1, k2, k3⟩ := parseList_head_dt dl dt0 rest idPfx hc hdt
    refine ⟨k1, k2, ?_, ?_⟩
    · intro hcu hne
      rw [k3]
      rcases classifyMarker_symbol_cases (jsTrim (renderInlineToMd (childrenOf dt0))) with
        ⟨hs1, hs2, hs3⟩ | ⟨hs1, hs2⟩
      · rw [if_pos ⟨hs2, hs1, by rw [hs3]; simpa [optTruthy, jsTrim_idem] using hne⟩]
        rw [hs3, jsTrim_idem]
      · exact absurd hcu hs1
    · intro hnc
      rw [k3]
      rcases classifyMarker_symbol_cases (jsTrim (renderInlineToMd (childrenOf dt0))) with
        ⟨hs1, hs2, hs3⟩ | ⟨hs1, hs2⟩
      · exact absurd hs1 hnc
      · rw [if_neg (fun hh => hnc hh.2.1)]
  · intro dl dl2 dt0 rest rest2 idPfx idPfx2 hc hc2 hdt
    obtain ⟨k1, k2, k3⟩ := parseList_head_dt dl dt0 rest idPfx hc hdt
    obtain ⟨m1, m2, m3⟩ := parseList_head_dt dl2 dt0 rest2 idPfx2 hc2 hdt
    exact ⟨by rw [k1, m1], by rw [k2, m2], by rw [k3, m3]⟩


/-- C4: for every outline record, the computed depth is a pure function of
the numeric outline code following the 2-digit-root plus 3-digit-chunk
grouping: a code whose digits are just the 2-digit root has depth 1 and
each additional 3-digit chunk adds one; in particular code 050030 computes
depth 2 and code 05 computes depth 1. -/
theorem c4_levelFromCode_depth :
    (∀ (code : String) (k : Nat),
        ((jsTrim code).toList.filter Char.isDigit).length = 2 + 3 * k →
        levelFromCode code = 1 + k) ∧
    levelFromCode "050030" = 2 ∧ levelFromCode "05" = 1 := by
  refine ⟨?_, by decide, by decide⟩
  intro code k h
  unfold levelFromCode
  have hne : ((jsTrim code).toList.filter Char.isDigit) ≠ [] := by
    intro e
    rw [e] at h
    simp only [List.length_nil] at h
    omega
  rw [if_neg hne, h]
  omega

/-- Witness for C4's universal part at a concrete code with one chunk. -/
theorem c4_levelFromCode_depth_witness : levelFromCode "05001" = 1 + 1 :=
  c4_levelFromCode_depth.1 "05001" 1 (by decide)

/-- C8: for every table cell whose attributes name a start and an end
column that both resolve in the column-name index, the colspan equals
endIndex - startIndex + 1; when either name is absent or unresolvable it
defaults to 1; in particular namest col1 with nameend col3 against columns
col1, col2, col3 gives colspan 3. -/
theorem c8_calculateColspan :
    (∀ (st en : String) (names : List String) (i j : Nat),
        names.indexOf? st = some i → names.indexOf? en = some j →
        calculateColspan (some st) (some en) names = (j : Int) - (i : Int) + 1) ∧
    (∀ (st : String) (names : List String),
        calculateColspan (some st) none names = 1) ∧
    (∀ (en : Option String) (names : List String),
        calculateColspan none en names = 1) ∧
    (∀ (st en : String) (names : List String), names.indexOf? st = none →
        calculateColspan (some st) (some en) names = 1) ∧
    (∀ (st en : String) (names : List String), names.indexOf? en = none →
        calculateColspan (some st) (some en) names = 1) ∧
    calculateColspan (some "col1") (some "col3") ["col1", "col2", "col3"] = 3 := by
  refine ⟨?_, ?_, ?_, ?_, ?_, by decide⟩
  · intro st en names i j hi hj
    simp only [calculateColspan, jsIndexOf, hi, hj]
    split
    · exfalso
      rename_i hcond
      simp at hcond
    · rfl
  · intro st names
    simp [calculateColspan]
  · intro en names
    simp [calculateColspan]
  · intro st en names hst
    simp [calculateColspan, jsIndexOf, hst]
  · intro st en names hen
    simp [calculateColspan, jsIndexOf, hen]

/-- Witness for C8's universal parts at concrete column names. -/
theorem c8_calculateColspan_witness :
    calculateColspan (some "a") (some "c") ["a", "b", "c", "d"] = (2 : Int) - 0 + 1 ∧
    calculateColspan (some "x") (some "c") ["a", "b", "c", "d"] = 1 :=
  ⟨c8_calculateColspan.1 "a" "c" ["a", "b", "c", "d"] 0 2 (by decide) (by decide),
   c8_calculateColspan.2.2.2.1 "x" "c" ["a", "b", "c", "d"] (by decide)⟩

end Law2Json

namespace Law2Json

/-- Witness for C2's list-level parts at a concrete definition list. -/
theorem c2_marker_classes_witness :
    ((parseList c2Dl "").kind =
        (classifyMarker (jsTrim (renderInlineToMd (childrenOf c2Dt)))).kind ∧
      (parseList c2Dl "").style =
        (classifyMarker (jsTrim (renderInlineToMd (childrenOf c2Dt)))).style ∧
      ((classifyMarker (jsTrim (renderInlineToMd (childrenOf c2Dt)))).style = .custom →
        jsTrim (renderInlineToMd (childrenOf c2Dt)) ≠ "" →
        (parseList c2Dl "").symbol =
          some (jsTrim (renderInlineToMd (childrenOf c2Dt)))) ∧
      ((classifyMarker (jsTrim (renderInlineToMd (childrenOf c2Dt)))).style ≠ .custom →
        (parseList c2Dl "").symbol = none)) :=
  c2_marker_classes.2.2.2.2.2.2.2.2.1 c2Dl c2Dt [.elem "DD" [] [.text "x"]] ""
    rfl rfl

/-- Helper: a successful Art/Artikel match always yields the normalized
Art label for its captured number. -/
theorem artMatch_label {cs : List Char} {l i : String}
    (h : artMatch cs = some (l, i)) : l = "Art. " ++ i := by
  unfold artMatch at h
  split at h <;> try simp_all
  split at h <;> try simp_all
  all_goals try (rw [← h.2.1, h.2.2])
  all_goals try (obtain ⟨h1, h2⟩ := h; rw [← h1, ← h2])

/-- C7: a structural record's citation label is matched against the closed
citation grammar: on match an Article is produced with the captured number
as id and a normalized label; on no match with a non-empty label a generic
Section is produced with the raw label as title; label Art. 5 gives an
Article with id 5 and label Art. 5, label Inhaltsübersicht gives a Section
with that title, and a record with no citation pattern and no label
produces no node at all. -/
theorem c7_article_enbez :
    parseArticleEnbez "Art. 5" = some ("Art. 5", "5") ∧
    parseArticleEnbez "Inhaltsübersicht" = none ∧
    (∀ (s l i : String), parseArticleEnbez s = some (l, i) →
        l = "§ " ++ i ∨ l = "Art. " ++ i) ∧
    parseArticle c7ArtNorm =
      some (.article "5" "Art. 5" none none [] []) ∧
    parseSection c7SecNorm =
      some (.section (some "Inhaltsübersicht") none []) ∧
    (∀ (norm meta : PONode) (st : CState),
        firstChild norm "metadaten" = some meta →
        firstChild meta "enbez" = none →
        firstChild meta "gliederungseinheit" = none →
        convertStep st norm = st) ∧
    (∀ (norm meta enbezN : PONode),
        firstChild norm "metadaten" = some meta →
        firstChild meta "enbez" = some enbezN →
        parseArticleEnbez (textDeep enbezN) = none →
        textDeep enbezN ≠ "" →
        parseSection norm =
          some (.section (some (textDeep enbezN)) (doknrOf norm)
            (contentBlocks norm ""))) ∧
    (∀ (norm meta enbezN : PONode) (l i : String),
        firstChild norm "metadaten" = some meta →
        firstChild meta "enbez" = some enbezN →
        parseArticleEnbez (textDeep enbezN) = some (l, i) →
        parseArticle norm =
          some (.article i l ((firstChild meta "titel").map textDeep)
            (doknrOf norm) (collectFootnotes norm) (contentBlocks norm i))) := by
  refine ⟨by decide, by decide, ?_, ?_, ?_, ?_, ?_, ?_⟩
  · intro s l i h
    unfold parseArticleEnbez at h
    by_cases hsig : (jsTrim s).toList.takeWhile (fun c => c = '§') ≠ []
    · rw [if_pos hsig] at h
      cases hnum : citeNumTail ((jsTrim s).toList.dropWhile (fun c => c = '§')) with
      | some num =>
        rw [hnum] at h
        simp at h
        left
        rw [← h.1, ← h.2]
      | none =>
        rw [hnum] at h
        exact Or.inr (artMatch_label h)
    · rw [if_neg hsig] at h
      exact Or.inr (artMatch_label h)
  · have h1 : firstChild c7ArtNorm "metadaten" =
        some (.elem "metadaten" [] [.elem "enbez" [] [.text "Art. 5"]]) := by
      simp [firstChild, c7ArtNorm, childrenOf, lname, lnameOf, stripNs,
            asciiLowerStr, asciiToLower, isAsciiUpper]
    have h2 : firstChild (PONode.elem "metadaten" []
        [.elem "enbez" [] [.text "Art. 5"]]) "enbez" =
        some (.elem "enbez" [] [.text "Art. 5"]) := by
      simp [firstChild, childrenOf, lname, lnameOf, stripNs, asciiLowerStr,
            asciiToLower, isAsciiUpper]
    have h3 : textDeep (PONode.elem "enbez" [] [.text "Art. 5"]) = "Art. 5" := by
      simp [textDeep, textDeepRaw, textDeepRawList, jsTrim, jsIsSpace]
    have h4 : parseArticleEnbez "Art. 5" = some ("Art. 5", "5") := by decide
    have h5 : contentBlocks c7ArtNorm "5" = [] := by
      simp [contentBlocks, allDesc, allDescWalk, allDescWalkList, c7ArtNorm,
            lnameOf, stripNs, asciiLowerStr, asciiToLower, isAsciiUpper, childrenOf]
    have h6 : collectFootnotes c7ArtNorm = [] := by
      simp [collectFootnotes, allDesc, allDescWalk, allDescWalkList, c7ArtNorm,
            lnameOf, stripNs, asciiLowerStr, asciiToLower, isAsciiUpper, childrenOf]
    have h7 : firstChild (PONode.elem "metadaten" []
        [.elem "enbez" [] [.text "Art. 5"]]) "titel" = none := by
      simp [firstChild, childrenOf, lname, lnameOf, stripNs, asciiLowerStr,
            asciiToLower, isAsciiUpper]
    have h8 : doknrOf c7ArtNorm = none := by
      simp [doknrOf, getAttr, attrsOf, c7ArtNorm]
    unfold parseArticle
    rw [h1]
    simp only [h2, h3, h4, h5, h6, h7, h8]
    rfl
  · have h1 : firstChild c7SecNorm "metadaten" =
        some (.elem "metadaten" [] [.elem "enbez" [] [.text "Inhaltsübersicht"]]) := by
      simp [firstChild, c7SecNorm, childrenOf, lname, lnameOf, stripNs,
            asciiLowerStr, asciiToLower, isAsciiUpper]
    have h2 : firstChild (PONode.elem "metadaten" []
        [.elem "enbez" [] [.text "Inhaltsübersicht"]]) "enbez" =
        some (.elem "enbez" [] [.text "Inhaltsübersicht"]) := by
      simp [firstChild, childrenOf, lname, lnameOf, stripNs, asciiLowerStr,
            asciiToLower, isAsciiUpper]
    have h3 : textDeep (PONode.elem "enbez" [] [.text "Inhaltsübersicht"]) =
        "Inhaltsübersicht" := by
      simp [textDeep, textDeepRaw, textDeepRawList, jsTrim, jsIsSpace]
    have h4 : parseArticleEnbez "Inhaltsübersicht" = none := by decide
    have h5 : contentBlocks c7SecNorm "" = [] := by
      simp [contentBlocks, allDesc, allDescWalk, allDescWalkList, c7SecNorm,
            lnameOf, stripNs, asciiLowerStr, asciiToLower, isAsciiUpper, childrenOf]
    have h8 : doknrOf c7SecNorm = none := by
      simp [doknrOf, getAttr, attrsOf, c7SecNorm]
    unfold parseSection
    rw [h1]
    simp only [h2, h3, h4, h5, h8]
    rw [if_pos (by decide)]
  · intro norm meta st h1 h2 h3
    unfold convertStep
    unfold parseOutline parseArticle parseSection
    rw [h1]
    simp only [h2, h3]
  · intro norm meta enbezN h1 h2 h3 h4
    unfold parseSection
    rw [h1]
    simp only [h2, h3]
    rw [if_pos h4]
  · intro norm meta enbezN l i h1 h2 h3
    unfold parseArticle
    rw [h1]
    simp only [h2, h3]

/-- Witness for C7's universal parts at concrete records. -/
theorem c7_article_enbez_witness :
    parseArticleEnbez "§ 3" = some ("§ 3", "3") →
    ("§ 3" = "§ " ++ "3" ∨ "§ 3" = "Art. " ++ "3") :=
  fun h => c7_article_enbez.2.2.1 "§ 3" "§ 3" "3" h

end Law2Json

namespace Law2Json

theorem parenNumMatch_ne_empty {s : String} {r : String × Nat}
    (hm : parenNumMatch s = some r) : s ≠ "" := by
  intro he
  subst he
  simp [parenNumMatch] at hm

theorem paraScanNum_head_text (t : String) (ks : List PONode) (n : String) (len : Nat)
    (hm : parenNumMatch (jsTrim t) = some (n, len)) :
    paraScanNum (.text t :: ks) = some n := by
  simp [paraScanNum, hm]

theorem pFlushText_empty (out : List PChild) : pFlushText "" out = out := rfl

theorem paraLoop_single_text (t pid : String) (hne : jsTrim t ≠ "") :
    paraLoop [.text t] pid ("", []) = [PChild.md (jsTrim t)] := by
  rw [paraLoop]
  dsimp only [lname]
  rw [paraLoop]
  show pFlushText ("" ++ t) [] = [PChild.md (jsTrim t)]
  have : ("" ++ t : String) = t := by simp
  rw [this]
  simp [pFlushText, hne]

theorem paraLoop_text_dl (t : String) (dlN : PONode) (pid : String)
    (hdl : lname dlN = some "dl") (hne : jsTrim t ≠ "") :
    paraLoop [.text t, dlN] pid ("", []) =
      [PChild.md (jsTrim t), .list (parseList dlN pid)] := by
  rw [paraLoop]
  dsimp only [lname]
  rw [paraLoop, hdl]
  dsimp only
  rw [if_pos rfl]
  rw [paraLoop]
  dsimp only [textOf]
  have h0 : ("" ++ t : String) = t := by simp
  rw [h0, pFlushText_empty]
  simp [pFlushText, hne]

theorem paraFinalize_match (n pid m0 : String) (tail : List PChild)
    (n2 : String) (len2 : Nat) (hm : parenNumMatch m0 = some (n2, len2)) :
    paraFinalize (some n) pid (PChild.md m0 :: tail) =
      .mk (some ("(" ++ n ++ ")")) (some pid) (PChild.md (strDrop m0 len2) :: tail) := by
  simp [paraFinalize, hm]

theorem c1_general_single (tag : String) (attrs : List (String × String))
    (t idPfx n : String) (len : Nat)
    (hm : parenNumMatch (jsTrim t) = some (n, len)) :
    parseParagraph (.elem tag attrs [.text t]) idPfx =
      .mk (some ("(" ++ n ++ ")"))
        (some (if idPfx ≠ "" then idPfx ++ "." ++ n else n))
        [PChild.md (strDrop (jsTrim t) len)] := by
  rw [parseParagraph]
  dsimp only [childrenOf]
  rw [paraScanNum_head_text t [] n len hm]
  dsimp only
  rw [paraLoop_single_text t _ (parenNumMatch_ne_empty hm)]
  rw [paraFinalize_match n _ _ [] n len hm]

theorem c1_general_text_dl (tag : String) (attrs : List (String × String))
    (t : String) (dlN : PONode) (idPfx n : String) (len : Nat)
    (hm : parenNumMatch (jsTrim t) = some (n, len)) (hdl : lname dlN = some "dl") :
    parseParagraph (.elem tag attrs [.text t, dlN]) idPfx =
      .mk (some ("(" ++ n ++ ")"))
        (some (if idPfx ≠ "" then idPfx ++ "." ++ n else n))
        [PChild.md (strDrop (jsTrim t) len),
         PChild.list (parseList dlN (if idPfx ≠ "" then idPfx ++ "." ++ n else n))] := by
  rw [parseParagraph]
  dsimp only [childrenOf]
  rw [paraScanNum_head_text t [dlN] n len hm]
  dsimp only
  rw [paraLoop_text_dl t dlN _ hdl (parenNumMatch_ne_empty hm)]
  rw [paraFinalize_match n _ _ _ n len hm]

theorem c1_edge_eq :
    parseParagraph c1Edge "" =
      .mk (some "(1)") (some "1") [PChild.md "", PChild.list (parseList c1Dl "1")] := by
  have h := c1_general_text_dl "P" [] "(1) " c1Dl "" "1" 3 (by decide) (by decide)
  have e1 : strDrop (jsTrim "(1) ") 3 = "" := by decide
  have e2 : (if ("" : String) ≠ "" then ("" : String) ++ "." ++ "1" else "1") = "1" := by
    simp
  rw [e1, e2] at h
  exact h

/-- C1 counterexample: in the edge case (only leading text is the
numbering marker, followed immediately by a nested list) the stripped
first text run is NOT dropped: an empty TextRun remains among the
children, contrary to the claim. -/
theorem c1_paragraph_numbering_cex :
    PChild.md "" ∈ (parseParagraph c1Edge "").children := by
  have h := c1_general_text_dl "P" [] "(1) " c1Dl "" "1" 3 (by decide) (by decide)
  have e1 : strDrop (jsTrim "(1) ") 3 = "" := by decide
  rw [e1] at h
  have : (parseParagraph c1Edge "").children =
      [PChild.md "", PChild.list (parseList c1Dl (if ("" : String) ≠ "" then ("" : String) ++ "." ++ "1" else "1"))] := by
    rw [show c1Edge = PONode.elem "P" [] [.text "(1) ", c1Dl] from rfl, h]
    rfl
  rw [this]
  exact List.mem_cons_self _ _


/-- C1 (amended): when a paragraph's leading text begins with a
parenthesized number, parseParagraph returns a Paragraph labelled with
that number, with id the prefix extended by the number (or the bare
number without prefix), and the matched marker text stripped from the
first emitted TextRun; content (1) Example text yields label (1) and the
single TextRun Example text; and when the only leading text is the marker
followed immediately by a nested list, the marker is still stripped but
the now-empty first text run REMAINS in the children as an empty TextRun
rather than being dropped. -/
theorem c1_paragraph_numbering :
    parseParagraph c1P1 "" =
      .mk (some "(1)") (some "1") [PChild.md "Example text"] ∧
    (∀ (tag : String) (attrs : List (String × String)) (t idPfx n : String) (len : Nat),
        parenNumMatch (jsTrim t) = some (n, len) →
        parseParagraph (.elem tag attrs [.text t]) idPfx =
          .mk (some ("(" ++ n ++ ")"))
            (some (if idPfx ≠ "" then idPfx ++ "." ++ n else n))
            [PChild.md (strDrop (jsTrim t) len)]) ∧
    (∀ (tag : String) (attrs : List (String × String)) (t : String) (dlN : PONode)
        (idPfx n : String) (len : Nat),
        parenNumMatch (jsTrim t) = some (n, len) → lname dlN = some "dl" →
        parseParagraph (.elem tag attrs [.text t, dlN]) idPfx =
          .mk (some ("(" ++ n ++ ")"))
            (some (if idPfx ≠ "" then idPfx ++ "." ++ n else n))
            [PChild.md (strDrop (jsTrim t) len),
             PChild.list (parseList dlN (if idPfx ≠ "" then idPfx ++ "." ++ n else n))]) ∧
    parseParagraph c1Edge "" =
      .mk (some "(1)") (some "1") [PChild.md "", PChild.list (parseList c1Dl "1")] := by
  refine ⟨?_, ?_, ?_, c1_edge_eq⟩
  · simp [parseParagraph, c1P1, paraScanNum, paraLoop, paraFinalize, parenNumMatch,
          jsTrim, jsIsSpace, childrenOf, lname, lnameOf, stripNs, asciiLowerStr,
          asciiToLower, textOf, pFlushText, strDrop, isAsciiUpper]
  · intro tag attrs t idPfx n len hm
    exact c1_general_single tag attrs t idPfx n len hm
  · intro tag attrs t dlN idPfx n len hm hdl
    exact c1_general_text_dl tag attrs t dlN idPfx n len hm hdl

/-- Witness for C1's universal parts at a concrete numbered paragraph. -/
theorem c1_paragraph_numbering_witness :
    parseParagraph (.elem "P" [] [.text "(2) Foo"]) "7" =
      .mk (some ("(" ++ "2" ++ ")"))
        (some (if ("7" : String) ≠ "" then "7" ++ "." ++ "2" else "2"))
        [PChild.md (strDrop (jsTrim "(2) Foo") 4)] :=
  c1_paragraph_numbering.2.1 "P" [] "(2) Foo" "7" "2" 4 (by decide)


end Law2Json
